import Mathlib

/-!
Verification of the Caption Synthesis Engine of the video-generator
repository (source: src/nodes/subtitle-generation-node.ts).

Strings of the source are modelled as `List Char` (one entry per code
point); JavaScript numbers are modelled as rationals (`ℚ`); fallible
operations (`parseInt` producing NaN) return `Option`.  Each definition
below mirrors one function of the source file; theorems settle the
frozen claims about the spec.
-/

namespace CaptionEngine

/-- Character class of the JavaScript regular-expression escape
backslash-s (whitespace), as used by trim, split and replace in the
source. -/
def jsWhitespace (c : Char) : Bool :=
  -- code points of space, tab, newline, carriage return, vertical tab,
  -- form feed, no-break space, ogham space mark, the en-quad..hair-space
  -- range, line separator, paragraph separator, narrow no-break space,
  -- medium mathematical space, ideographic space and byte order mark
  c.toNat = 32 || c.toNat = 9 || c.toNat = 10 || c.toNat = 13 ||
  c.toNat = 11 || c.toNat = 12 || c.toNat = 160 || c.toNat = 5760 ||
  (8192 ≤ c.toNat && c.toNat ≤ 8202) || c.toNat = 8232 || c.toNat = 8233 ||
  c.toNat = 8239 || c.toNat = 8287 || c.toNat = 12288 || c.toNat = 65279

/-- Model of the JavaScript String.prototype.trim: strip leading and
trailing whitespace. -/
def jsTrim (l : List Char) : List Char :=
  ((l.dropWhile jsWhitespace).reverse.dropWhile jsWhitespace).reverse

/-- Model of text.replace with the whitespace-run pattern and a single
space replacement, used by formatSegmentText to sanitise a segment; the
flag records whether the scan is inside a whitespace run that has
already emitted its space. -/
def collapseWsGo : Bool → List Char → List Char
  | _, [] => []
  | inRun, c :: cs =>
    if jsWhitespace c then
      if inRun then collapseWsGo true cs else ' ' :: collapseWsGo true cs
    else c :: collapseWsGo false cs

/-- Replacement of every maximal whitespace run by one space. -/
def collapseWs (l : List Char) : List Char :=
  collapseWsGo false l

/-- Model of String.prototype.split with a single-character separator. -/
def splitOnCharCE (sep : Char) : List Char → List (List Char)
  | [] => [[]]
  | c :: cs =>
    if c = sep then [] :: splitOnCharCE sep cs
    else
      match splitOnCharCE sep cs with
      | [] => [[c]]
      | h :: t => (c :: h) :: t

/-- Model of Array.prototype.join with a one-character separator. -/
def joinSep (sep : Char) : List (List Char) → List Char
  | [] => []
  | [l] => l
  | l :: ls => l ++ sep :: joinSep sep ls

/-- Decimal digit list of a natural number, the model of the JavaScript
String conversion applied to a non-negative integer. -/
def natDigits (n : Nat) : List Char :=
  if _h : n < 10 then [Nat.digitChar n]
  else natDigits (n / 10) ++ [Nat.digitChar (n % 10)]
termination_by n
decreasing_by exact Nat.div_lt_self (by omega) (by omega)

/-- Model of the JavaScript String conversion of an integer. -/
def intToChars (i : Int) : List Char :=
  if i < 0 then '-' :: natDigits (-i).toNat else natDigits i.toNat

/-- Model of String.prototype.padStart with a one-character pad. -/
def padStart (len : Nat) (c : Char) (l : List Char) : List Char :=
  List.replicate (len - l.length) c ++ l

/-- ASCII decimal digit. -/
def isAsciiDigit (c : Char) : Bool :=
  48 ≤ c.toNat && c.toNat ≤ 57

/-- Value of a list of decimal digit characters, most significant
first. -/
def digitsVal (l : List Char) : Nat :=
  l.foldl (fun a c => a * 10 + (c.toNat - 48)) 0

/-- Model of the JavaScript parseInt with radix 10: skip leading
whitespace, read an optional sign and then a maximal run of decimal
digits; no digits at all gives NaN, modelled as none. -/
def parseIntM (l : List Char) : Option Int :=
  match l.dropWhile jsWhitespace with
  | [] => none
  | c :: r =>
    if c = '-' then
      let ds := r.takeWhile isAsciiDigit
      if ds.isEmpty then none else some (-(digitsVal ds : Int))
    else if c = '+' then
      let ds := r.takeWhile isAsciiDigit
      if ds.isEmpty then none else some (digitsVal ds : Int)
    else
      let ds := (c :: r).takeWhile isAsciiDigit
      if ds.isEmpty then none else some (digitsVal ds : Int)

/-- Truncation toward zero, the rounding used by the JavaScript
remainder operator. -/
def jsTrunc (q : ℚ) : ℤ :=
  if q < 0 then ⌈q⌉ else ⌊q⌋

/-- Model of the JavaScript remainder operator on numbers. -/
def jsMod (a b : ℚ) : ℚ :=
  a - b * (jsTrunc (a / b) : ℚ)

/-- Model of Math.round: round half toward positive infinity. -/
def jsRound (q : ℚ) : ℤ :=
  ⌊q + 1 / 2⌋

/-- Model of formatTimestamp (source lines 397-403): seconds to the
plain comma-decimal HH:MM:SS,mmm shape, components floored, zero
padded. -/
def formatTimestamp (seconds : ℚ) : List Char :=
  let hours : ℤ := ⌊seconds / 3600⌋
  let minutes : ℤ := ⌊jsMod seconds 3600 / 60⌋
  let secs : ℤ := ⌊jsMod seconds 60⌋
  let millis : ℤ := ⌊jsMod seconds 1 * 1000⌋
  padStart 2 '0' (intToChars hours) ++ ':' ::
    (padStart 2 '0' (intToChars minutes) ++ ':' ::
      (padStart 2 '0' (intToChars secs) ++ ',' ::
        padStart 3 '0' (intToChars millis)))

/-- Model of parseTimestamp (source lines 419-428): split on the colon
into hours, minutes and the rest, split the rest on the comma, parse
each part in base 10 and recombine; a non-numeric part is NaN, modelled
as none. -/
def parseTimestamp (timestamp : List Char) : Option ℚ :=
  let parts := splitOnCharCE ':' timestamp
  let hh := parts.getD 0 []
  let mm := parts.getD 1 []
  let rest := parts.getD 2 []
  let sub := splitOnCharCE ',' rest
  let ss := sub.getD 0 []
  let ms := sub.getD 1 []
  match parseIntM hh, parseIntM mm, parseIntM ss, parseIntM ms with
  | some h, some m, some s, some x =>
    some ((h : ℚ) * 3600 + (m : ℚ) * 60 + (s : ℚ) + (x : ℚ) / 1000)
  | _, _, _, _ => none

/-- One subtitle cue as produced by the node (types/data-types.ts):
1-based index, formatted start and end timestamps, wrapped text. -/
structure SubtitleSegment where
  index : Nat
  startTime : List Char
  endTime : List Char
  text : List Char
deriving DecidableEq

/-- Optional style overrides of the subtitle node configuration
(config-types.ts, style block). -/
structure AssStyleOverrides where
  fontName? : Option (List Char) := none
  fontSize? : Option ℚ := none
  primaryColor? : Option (List Char) := none
  outlineColor? : Option (List Char) := none
  backColor? : Option (List Char) := none
  outline? : Option ℚ := none
  shadow? : Option ℚ := none
  bold? : Option ℚ := none
  alignment? : Option ℚ := none
  marginV? : Option ℚ := none
  marginL? : Option ℚ := none
  marginR? : Option ℚ := none
  fadeIn? : Option ℚ := none
  fadeOut? : Option ℚ := none

/-- Subtitle node configuration (config-types.ts).  Every field the node
reads through a nullish-coalescing fallback is optional here; the
highlight pattern is embedded abstractly as a matcher that attempts a
match at the front of a string and returns the match and the rest. -/
structure SubtitleGenerationNodeConfig where
  maxCharsPerLine? : Option Nat := none
  maxLines? : Option Nat := none
  readingSpeed? : Option ℚ := none
  minDuration? : Option ℚ := none
  maxDuration? : Option ℚ := none
  highlightEnabled? : Option Bool := none
  highlightMatcher? : Option (List Char → Option (List Char × List Char)) := none
  highlightColor? : Option (List Char) := none
  styleOverrides? : Option AssStyleOverrides := none

/-- Resolved ASS style record (source interface AssStyleConfig). -/
structure AssStyleConfig where
  fontName : List Char
  fontSize : ℚ
  primaryColor : List Char
  secondaryColor : List Char
  outlineColor : List Char
  backColor : List Char
  outline : ℚ
  shadow : ℚ
  bold : ℚ
  alignment : ℚ
  marginV : ℚ
  marginL : ℚ
  marginR : ℚ
  fadeIn : ℚ
  fadeOut : ℚ

/-- Sentence-terminal characters of the split pattern in
splitBySentences (source line 166). -/
def isSentenceTerminal (c : Char) : Bool :=
  -- code points of the characters 。 ！ ？ ! ?
  c.toNat = 12290 || c.toNat = 65281 || c.toNat = 65311 ||
  c.toNat = 33 || c.toNat = 63

/-- Model of the JavaScript split on the capturing pattern of source
line 166: a separator is either a terminal mark followed by its run of
whitespace, or a run of newlines; pieces and separators alternate in
the output as with a capturing split. -/
def splitScan : List Char → List Char → List (List Char)
  | [], acc => [acc.reverse]
  | c :: cs, acc =>
    if isSentenceTerminal c then
      acc.reverse :: (c :: cs.takeWhile jsWhitespace) ::
        splitScan (cs.dropWhile jsWhitespace) []
    else if c = '\n' then
      acc.reverse :: (c :: cs.takeWhile (· = '\n')) ::
        splitScan (cs.dropWhile (· = '\n')) []
    else splitScan cs (c :: acc)
termination_by l _ => l.length
decreasing_by
  all_goals simp only [List.length_cons]
  · exact Nat.lt_succ_of_le (List.dropWhile_sublist jsWhitespace).length_le
  · exact Nat.lt_succ_of_le (List.dropWhile_sublist _).length_le
  · exact Nat.lt_succ_self cs.length

/-- Buffer loop of splitBySentences (source lines 168-186): skip empty
parts, accumulate, flush the buffer after a part made only of terminal
marks and newlines, and keep a final buffer whose trim is non-empty. -/
def sentenceLoop : List (List Char) → List Char → List (List Char)
  | [], buffer => if jsTrim buffer ≠ [] then [buffer] else []
  | part :: parts, buffer =>
    if part = [] then sentenceLoop parts buffer
    else if part.all (fun c => isSentenceTerminal c || c = '\n') then
      (buffer ++ part) :: sentenceLoop parts []
    else sentenceLoop parts (buffer ++ part)

/-- Model of splitBySentences (source lines 163-188). -/
def splitBySentences (text : List Char) : List (List Char) :=
  sentenceLoop (splitScan (text.filter (· ≠ '\r')) []) []

/-- Natural break point characters, model of isBreakPoint (source lines
234-236). -/
def isBreakPoint (c : Char) : Bool :=
  -- code points of the characters 、 。 . , ! ? plus whitespace
  c.toNat = 12289 || c.toNat = 12290 || c.toNat = 46 || c.toNat = 44 ||
  c.toNat = 33 || c.toNat = 63 || jsWhitespace c

/-- Pure separator characters discarded at a break (source line 206). -/
def isSeparatorChar (c : Char) : Bool :=
  -- code points of the characters , 、 。 plus whitespace
  c.toNat = 44 || c.toNat = 12289 || c.toNat = 12290 || jsWhitespace c

/-- Character loop of formatSegmentText (source lines 202-222), with the
line buffer and accumulated lines as explicit state.  The first branch
is the break-point lookahead of the source; the pushes at the character
limit and the maxLines early exit follow it exactly. -/
def wrapGo (maxC maxL : Nat) : List Char → List Char → List (List Char) → List (List Char)
  | [], cur, lns =>
    if jsTrim cur ≠ [] ∧ lns.length < maxL then lns ++ [jsTrim cur] else lns
  | c :: cs, cur, lns =>
    if maxC ≤ cur.length ∧ isBreakPoint c then
      let lns0 := lns ++ [jsTrim cur]
      if isSeparatorChar c then
        wrapGo maxC maxL cs [] lns0
      else
        if maxC ≤ ([c] : List Char).length then
          let lns1 := lns0 ++ [jsTrim [c]]
          if lns1.length = maxL then lns1 else wrapGo maxC maxL cs [] lns1
        else
          if lns0.length = maxL then lns0 else wrapGo maxC maxL cs [c] lns0
    else
      let cur1 := cur ++ [c]
      if maxC ≤ cur1.length then
        let lns1 := lns ++ [jsTrim cur1]
        if lns1.length = maxL then lns1 else wrapGo maxC maxL cs [] lns1
      else
        if lns.length = maxL then lns else wrapGo maxC maxL cs cur1 lns

/-- Model of formatSegmentText (source lines 193-229): sanitise
whitespace, return short text unchanged, otherwise run the character
loop and join at most maxLines lines with newlines. -/
def formatSegmentText (text : List Char) (maxCharsPerLine maxLines : Nat) : List Char :=
  let sanitized := jsTrim (collapseWs text)
  if sanitized.length ≤ maxCharsPerLine then sanitized
  else joinSep '\n' ((wrapGo maxCharsPerLine maxLines sanitized [] []).take maxLines)

/-- Sentence loop of splitIntoSegments (source lines 129-155): trim each
sentence, skip empties, flush the growing segment when appending the
next sentence would exceed the budget, and flush the final buffer. -/
def segGo (maxC maxL budget : Nat) :
    List (List Char) → List Char → Nat → List SubtitleSegment
  | [], currentSegment, index =>
    if jsTrim currentSegment ≠ [] then
      [⟨index, [], [], formatSegmentText currentSegment maxC maxL⟩]
    else []
  | sentence :: rest, currentSegment, index =>
    let trimmed := jsTrim sentence
    if trimmed = [] then segGo maxC maxL budget rest currentSegment index
    else if currentSegment ≠ [] ∧ budget < (currentSegment ++ trimmed).length then
      ⟨index, [], [], formatSegmentText currentSegment maxC maxL⟩ ::
        segGo maxC maxL budget rest trimmed (index + 1)
    else segGo maxC maxL budget rest (currentSegment ++ trimmed) index

/-- Model of splitIntoSegments (source lines 119-158). -/
def splitIntoSegments (script : List Char) (config : SubtitleGenerationNodeConfig) :
    List SubtitleSegment :=
  let maxCharsPerLine := config.maxCharsPerLine?.getD 42
  let maxLines := config.maxLines?.getD 2
  let maxCharsPerSegment := maxCharsPerLine * maxLines
  segGo maxCharsPerLine maxLines maxCharsPerSegment (splitBySentences script) [] 1

/-- State-passing form of the map in assignTimestamps (source lines
251-265): the running clock advances by the clamped duration of each
segment. -/
def assignGo (readingSpeed minDuration maxDuration : ℚ) :
    List SubtitleSegment → ℚ → List SubtitleSegment
  | [], _ => []
  | segment :: rest, currentTime =>
    let charCount := (segment.text.filter (· ≠ '\n')).length
    let duration := max minDuration (min maxDuration ((charCount : ℚ) / readingSpeed))
    { segment with
        startTime := formatTimestamp currentTime,
        endTime := formatTimestamp (currentTime + duration) } ::
      assignGo readingSpeed minDuration maxDuration rest (currentTime + duration)

/-- Model of assignTimestamps (source lines 241-266). -/
def assignTimestamps (segments : List SubtitleSegment)
    (config : SubtitleGenerationNodeConfig) : List SubtitleSegment :=
  assignGo (config.readingSpeed?.getD (29 / 5)) (config.minDuration?.getD (9 / 5))
    (config.maxDuration?.getD 3) segments 0

/-- Model of calculateTotalDuration (source lines 408-414): zero for an
empty list, otherwise the parsed end timestamp of the last segment. -/
def calculateTotalDuration (segments : List SubtitleSegment) : Option ℚ :=
  match segments.getLast? with
  | none => some 0
  | some lastSegment => parseTimestamp lastSegment.endTime

/-- Model of generateSRT (source lines 271-277). -/
def generateSRT (segments : List SubtitleSegment) : List Char :=
  joinSep '\n' (segments.map (fun segment =>
    natDigits segment.index ++ '\n' ::
      (segment.startTime ++ (" --> ".toList) ++ segment.endTime ++ '\n' ::
        (segment.text ++ ['\n']))))

/-- Model of the JavaScript String.prototype.replace with a plain
one-character pattern: only the first occurrence is replaced. -/
def replaceFirst (a b : Char) : List Char → List Char
  | [] => []
  | c :: cs => if c = a then b :: cs else c :: replaceFirst a b cs

/-- Model of generateVTT (source lines 282-292): header line, then per
cue a dot-decimal timing line and the text with newlines replaced by
spaces, with blank separators. -/
def generateVTT (segments : List SubtitleSegment) : List Char :=
  joinSep '\n' (("WEBVTT".toList) :: [] ::
    (segments.map (fun segment =>
      [replaceFirst ',' '.' segment.startTime ++ (" --> ".toList) ++
        replaceFirst ',' '.' segment.endTime,
       segment.text.map (fun c => if c = '\n' then ' ' else c),
       []])).flatten)

/-- Model of getAssStyle (source lines 359-378); note the source reuses
primaryColor for the secondary color. -/
def getAssStyle (config : SubtitleGenerationNodeConfig) : AssStyleConfig :=
  let style := config.styleOverrides?.getD {}
  { fontName := style.fontName?.getD ("Noto Sans JP Bold".toList)
    fontSize := style.fontSize?.getD 68
    primaryColor := style.primaryColor?.getD ("&H00FFFFFF&".toList)
    secondaryColor := style.primaryColor?.getD ("&H00FFFFFF&".toList)
    outlineColor := style.outlineColor?.getD ("&H00000000&".toList)
    backColor := style.backColor?.getD ("&H60000000&".toList)
    outline := style.outline?.getD 4
    shadow := style.shadow?.getD 1
    bold := style.bold?.getD 1
    alignment := style.alignment?.getD 5
    marginV := style.marginV?.getD 320
    marginL := style.marginL?.getD 60
    marginR := style.marginR?.getD 60
    fadeIn := style.fadeIn?.getD 120
    fadeOut := style.fadeOut?.getD 150 }

/-- Characters of the default highlight pattern: ASCII or full-width
decimal digits. -/
def isDigitFW (c : Char) : Bool :=
  isAsciiDigit c || (65296 ≤ c.toNat && c.toNat ≤ 65305)

/-- Unit characters that may follow a digit run in the default
highlight pattern. -/
def isUnitChar (c : Char) : Bool :=
  -- digits and the code points of . , ％ 万 億
  isDigitFW c || c.toNat = 46 || c.toNat = 44 || c.toNat = 65285 ||
  c.toNat = 19975 || c.toNat = 20740

/-- Upper-case ASCII letter. -/
def isUpperAscii (c : Char) : Bool :=
  65 ≤ c.toNat && c.toNat ≤ 90

/-- ASCII letter or digit, the trailing class of the second highlight
alternative. -/
def isWordTail (c : Char) : Bool :=
  isUpperAscii c || (97 ≤ c.toNat && c.toNat ≤ 122) || isAsciiDigit c

/-- Front-of-string matcher for the default highlight pattern of source
line 340: a digit run with unit characters, or at least two upper-case
letters followed by ASCII letters and digits. -/
def defaultHighlightMatch (l : List Char) : Option (List Char × List Char) :=
  match l with
  | [] => none
  | c :: cs =>
    if isDigitFW c then
      let rest1 := cs.dropWhile isDigitFW
      some (c :: cs.takeWhile isDigitFW ++ rest1.takeWhile isUnitChar,
        rest1.dropWhile isUnitChar)
    else if isUpperAscii c then
      match cs with
      | c2 :: cs2 =>
        if isUpperAscii c2 then
          some (c :: c2 :: cs2.takeWhile isWordTail, cs2.dropWhile isWordTail)
        else none
      | [] => none
    else none

/-- Colour-toggle marker inserted around a highlight match (source line
347). -/
def assHighlightMarker (color : List Char) : List Char :=
  '\\' :: '\x7b' :: '\\' :: '1' :: 'c' :: (color ++ ['\x7d'])

/-- Model of the global highlight replace of source line 347: scan left
to right, wrapping each match of the abstract matcher in colour-toggle
markers; a matcher result that does not shrink the input is treated as
no match so that the scan always advances. -/
def replaceMatches (matcher : List Char → Option (List Char × List Char))
    (hl base : List Char) : List Char → List Char
  | [] => []
  | c :: cs =>
    match matcher (c :: cs) with
    | some (m, rest) =>
      if _h : rest.length < cs.length + 1 then
        assHighlightMarker hl ++ m ++ assHighlightMarker base ++
          replaceMatches matcher hl base rest
      else c :: replaceMatches matcher hl base cs
    | none => c :: replaceMatches matcher hl base cs
termination_by l => l.length
decreasing_by
  all_goals simp only [List.length_cons]
  all_goals omega

/-- Model of the JavaScript global replace with a plain multi-character
pattern: leftmost matches, scanning resumes after each replacement. -/
def replaceAll (pat repl : List Char) : List Char → List Char
  | [] => []
  | c :: cs =>
    if h : pat ≠ [] ∧ pat.isPrefixOf (c :: cs) then
      repl ++ replaceAll pat repl ((c :: cs).drop pat.length)
    else c :: replaceAll pat repl cs
termination_by l => l.length
decreasing_by
  all_goals simp only [List.length_cons, List.length_drop]
  · have hp : 0 < pat.length := List.length_pos.mpr h.1
    omega
  · omega

/-- Model of prepareAssText (source lines 335-354): newline markers are
converted to the ASS escape, syntax characters are escaped, highlight
matches are wrapped in colour toggles with the partial unescape fixups
of source line 348, and the fade directive is prefixed. -/
def prepareAssText (text : List Char) (config : SubtitleGenerationNodeConfig)
    (style : AssStyleConfig) : List Char :=
  let baseColor := style.primaryColor
  let highlightEnabled := config.highlightEnabled?.getD true
  let matcher := config.highlightMatcher?.getD defaultHighlightMatch
  let highlightColor := config.highlightColor?.getD ("&H0000E0B8&".toList)
  let processed0 := ((text.filter (· ≠ '\r')).map
    (fun c => if c = '\n' then ['\\', 'N'] else [c])).flatten
  let processed1 :=
    replaceAll ['\x7d'] ['\\', '\x7d']
      (replaceAll ['\x7b'] ['\\', '\x7b']
        (replaceAll ['\\'] ['\\', '\\'] processed0))
  let processed2 :=
    if highlightEnabled then
      replaceAll ['\\', '\x7d'] ['\x7d']
        (replaceAll ['\\', '\\', '\x7b', '\\', '1', 'c'] ['\x7b', '\\', '1', 'c']
          (replaceMatches matcher highlightColor baseColor processed1))
    else processed1
  let fadeIn := max 0 (jsRound style.fadeIn)
  let fadeOut := max 0 (jsRound style.fadeOut)
  '\x7b' :: '\\' :: 'f' :: 'a' :: 'd' :: '(' ::
    (intToChars fadeIn ++ ',' :: (intToChars fadeOut ++ ')' :: '\x7d' :: processed2))

/-- Engine slice of executeInternal (source lines 63-73): reject empty
or whitespace-only script text, otherwise segment and timestamp it.
File lookup, rendering selection and file writing are outside the
engine. -/
def executeEngine (script : List Char) (config : SubtitleGenerationNodeConfig) :
    Except (List Char) (List SubtitleSegment) :=
  if script = [] ∨ jsTrim script = [] then .error ("Script is empty".toList)
  else .ok (assignTimestamps (splitIntoSegments script config) config)

/-- Lines of a cue text: the split at the newline markers inserted by
the line wrapper. -/
def linesOf (t : List Char) : List (List Char) :=
  splitOnCharCE '\n' t

/-- Trimmed non-empty sentence fragments of a script, exactly the
fragments the packing loop of splitIntoSegments consumes. -/
def scriptFragments (script : List Char) : List (List Char) :=
  ((splitBySentences script).map jsTrim).filter (· ≠ [])

/-- Greedy cue packer as worded by the spec: accumulate fragments into a
buffer, close the buffer as a cue exactly when appending the next
fragment would make it exceed the budget and restart from that
fragment, and close the final non-empty buffer. -/
def specPack (budget : Nat) : List (List Char) → List Char → List (List Char)
  | [], buf => if buf ≠ [] then [buf] else []
  | f :: fs, buf =>
    if buf ≠ [] ∧ budget < (buf ++ f).length then buf :: specPack budget fs f
    else specPack budget fs (buf ++ f)

/-- Grouping variant of the greedy packer: the same recursion, but each
cue is kept as the list of fragments it contains instead of their
concatenation. -/
def packGroups (budget : Nat) : List (List Char) → List (List Char) → List (List (List Char))
  | [], g => if g ≠ [] then [g] else []
  | f :: fs, g =>
    if g ≠ [] ∧ budget < (g.flatten ++ f).length then g :: packGroups budget fs [f]
    else packGroups budget fs (g ++ [f])

/-- Decoration of packed cue texts into segments: wrap each buffer and
assign consecutive indices from a starting ordinal. -/
def decorate (maxC maxL : Nat) : Nat → List (List Char) → List SubtitleSegment
  | _, [] => []
  | idx, b :: bs =>
    ⟨idx, [], [], formatSegmentText b maxC maxL⟩ :: decorate maxC maxL (idx + 1) bs

/-- Display-character count of a cue text, excluding line-break
markers, as worded by the spec for the timeline assigner. -/
def cueCharCount (text : List Char) : Nat :=
  (text.filter (· ≠ '\n')).length

/-- Clamped cue duration as worded by the spec: the character count over
the reading speed, clamped between the minimum and maximum cue
durations. -/
def cueDuration (readingSpeed minDuration maxDuration : ℚ) (text : List Char) : ℚ :=
  max minDuration (min maxDuration ((cueCharCount text : ℚ) / readingSpeed))

/-- Running clock of the timeline assigner as worded by the spec: zero
before the first cue, advanced by each cue's clamped duration. -/
def clockAt (readingSpeed minDuration maxDuration : ℚ)
    (segments : List SubtitleSegment) : Nat → ℚ
  | 0 => 0
  | i + 1 =>
    clockAt readingSpeed minDuration maxDuration segments i +
      cueDuration readingSpeed minDuration maxDuration
        ((segments.getD i ⟨0, [], [], []⟩).text)

/-! ### Basic lemmas about trimming -/

theorem dropWhile_head_not {p : Char → Bool} {x : List Char} :
    ∀ c ∈ (x.dropWhile p).head?, ¬ p c := by
  intro c hc
  cases h : x.dropWhile p with
  | nil => rw [h] at hc; simp at hc
  | cons d ds =>
    rw [h] at hc
    simp only [List.head?_cons, Option.mem_def, Option.some.injEq] at hc
    subst hc
    have := List.dropWhile_get_zero_not p x (by rw [h]; simp)
    simpa [h] using this

theorem dropWhile_eq_self_of_head {p : Char → Bool} {x : List Char}
    (h : ∀ c ∈ x.head?, ¬ p c) : x.dropWhile p = x := by
  cases x with
  | nil => rfl
  | cons c cs =>
    have : ¬ p c := h c rfl
    simp [List.dropWhile_cons, this]

theorem dropWhile_idem (p : Char → Bool) (x : List Char) :
    (x.dropWhile p).dropWhile p = x.dropWhile p :=
  dropWhile_eq_self_of_head (fun _ hc => dropWhile_head_not _ hc)

theorem dropWhile_self_head_not {p : Char → Bool} {c : Char} {cs : List Char}
    (ha : (c :: cs).dropWhile p = c :: cs) : ¬ p c := by
  intro hp
  have := congrArg List.length ha
  rw [List.dropWhile_cons_of_pos hp] at this
  have hle := (List.dropWhile_sublist (l := cs) p).length_le
  simp at this
  omega

theorem dropWhile_append_eq_self {p : Char → Bool} {a b : List Char}
    (ha : a.dropWhile p = a) (hb : b.dropWhile p = b) :
    (a ++ b).dropWhile p = a ++ b := by
  cases a with
  | nil => simpa using hb
  | cons c cs =>
    have hc : ¬ p c := dropWhile_self_head_not ha
    simp [List.dropWhile_cons, hc]

theorem mem_jsTrim {c : Char} {l : List Char} (h : c ∈ jsTrim l) : c ∈ l := by
  unfold jsTrim at h
  rw [List.mem_reverse] at h
  have h1 := (List.dropWhile_sublist (l := (l.dropWhile jsWhitespace).reverse) jsWhitespace).subset h
  rw [List.mem_reverse] at h1
  exact (List.dropWhile_sublist (l := l) jsWhitespace).subset h1

theorem jsTrim_length_le (l : List Char) : (jsTrim l).length ≤ l.length := by
  unfold jsTrim
  rw [List.length_reverse]
  calc ((l.dropWhile jsWhitespace).reverse.dropWhile jsWhitespace).length
      ≤ (l.dropWhile jsWhitespace).reverse.length := (List.dropWhile_sublist _).length_le
    _ = (l.dropWhile jsWhitespace).length := List.length_reverse _
    _ ≤ l.length := (List.dropWhile_sublist _).length_le

theorem jsTrim_eq_nil_iff {l : List Char} :
    jsTrim l = [] ↔ ∀ c ∈ l, jsWhitespace c := by
  unfold jsTrim
  rw [List.reverse_eq_nil_iff, List.dropWhile_eq_nil_iff]
  constructor
  · intro h c hc
    by_cases hw : jsWhitespace c
    · exact hw
    · exfalso
      have : c ∈ l.takeWhile jsWhitespace ++ l.dropWhile jsWhitespace := by
        rw [List.takeWhile_append_dropWhile]; exact hc
      rcases List.mem_append.mp this with h1 | h1
      · exact hw (List.mem_takeWhile_imp h1)
      · exact hw (h c (List.mem_reverse.mpr h1))
  · intro h c hc
    exact h c ((List.dropWhile_sublist _).subset (List.mem_reverse.mp hc))

theorem dropWhile_of_jsTrim_eq_self {l : List Char} (h : jsTrim l = l) :
    l.dropWhile jsWhitespace = l := by
  have hlen : l.length ≤ (l.dropWhile jsWhitespace).length := by
    have := congrArg List.length h
    unfold jsTrim at this
    rw [List.length_reverse] at this
    calc l.length = ((l.dropWhile jsWhitespace).reverse.dropWhile jsWhitespace).length := this.symm
      _ ≤ (l.dropWhile jsWhitespace).reverse.length := (List.dropWhile_sublist _).length_le
      _ = (l.dropWhile jsWhitespace).length := List.length_reverse _
  exact List.Sublist.eq_of_length (List.dropWhile_sublist _)
    (Nat.le_antisymm (List.dropWhile_sublist _).length_le hlen |>.symm ▸ rfl)



theorem dropWhile_reverse_of_jsTrim_eq_self {l : List Char} (h : jsTrim l = l) :
    l.reverse.dropWhile jsWhitespace = l.reverse := by
  have h1 := dropWhile_of_jsTrim_eq_self h
  have h2 : (l.reverse.dropWhile jsWhitespace).reverse = l := by
    have h' := h
    unfold jsTrim at h'
    rw [h1] at h'
    exact h'
  have hlen : (l.reverse.dropWhile jsWhitespace).length = l.reverse.length := by
    have := congrArg List.length h2
    simp only [List.length_reverse] at this ⊢
    omega
  exact List.Sublist.eq_of_length (List.dropWhile_sublist _) hlen

theorem jsTrim_append {a b : List Char} (ha : jsTrim a = a) (hb : jsTrim b = b) :
    jsTrim (a ++ b) = a ++ b := by
  have da := dropWhile_of_jsTrim_eq_self ha
  have db := dropWhile_of_jsTrim_eq_self hb
  have dra := dropWhile_reverse_of_jsTrim_eq_self ha
  have drb := dropWhile_reverse_of_jsTrim_eq_self hb
  unfold jsTrim
  rw [dropWhile_append_eq_self da db, List.reverse_append,
    dropWhile_append_eq_self drb dra]
  simp

theorem getLast?_dropWhile {p : Char → Bool} {x : List Char} (h : x.dropWhile p ≠ []) :
    (x.dropWhile p).getLast? = x.getLast? := by
  induction x with
  | nil => simp at h
  | cons c cs ih =>
    by_cases hp : p c
    · rw [List.dropWhile_cons_of_pos hp] at h ⊢
      rw [ih h]
      have hcs : cs ≠ [] := by
        intro hn
        rw [hn] at h
        simp at h
      cases cs with
      | nil => exact absurd rfl hcs
      | cons d ds => exact List.getLast?_cons_cons.symm
    · rw [List.dropWhile_cons_of_neg hp]

theorem jsTrim_expand (x : List Char) :
    jsTrim x = ((x.dropWhile jsWhitespace).reverse.dropWhile jsWhitespace).reverse := rfl

theorem jsTrim_idem (l : List Char) : jsTrim (jsTrim l) = jsTrim l := by
  by_cases hT : jsTrim l = []
  · rw [hT]; rfl
  · have hhead : ∀ c ∈ (jsTrim l).head?, ¬ jsWhitespace c := by
      intro c hc
      rw [jsTrim_expand l, List.head?_reverse] at hc
      have hB : (l.dropWhile jsWhitespace).reverse.dropWhile jsWhitespace ≠ [] := by
        intro hn
        apply hT
        rw [jsTrim_expand l, hn]
        rfl
      rw [getLast?_dropWhile hB, List.getLast?_reverse] at hc
      exact dropWhile_head_not _ hc
    have hd : (jsTrim l).dropWhile jsWhitespace = jsTrim l :=
      dropWhile_eq_self_of_head hhead
    have hdr : (jsTrim l).reverse.dropWhile jsWhitespace = (jsTrim l).reverse := by
      have h2 : (jsTrim l).reverse = (l.dropWhile jsWhitespace).reverse.dropWhile jsWhitespace := by
        rw [jsTrim_expand l, List.reverse_reverse]
      rw [h2]
      exact dropWhile_idem _ _
    rw [jsTrim_expand (jsTrim l), hd, hdr, List.reverse_reverse]

/-! ### Digit, parseInt and timestamp codec lemmas -/

theorem digitChar_toNat {d : Nat} (h : d < 10) : (Nat.digitChar d).toNat = 48 + d := by
  interval_cases d <;> decide

theorem natDigits_digits (n : Nat) :
    ∀ c ∈ natDigits n, 48 ≤ c.toNat ∧ c.toNat ≤ 57 := by
  induction n using natDigits.induct with
  | case1 n h =>
    rw [natDigits, dif_pos h]
    intro c hc
    simp only [List.mem_singleton] at hc
    subst hc
    rw [digitChar_toNat h]
    omega
  | case2 n h ih =>
    rw [natDigits, dif_neg h]
    intro c hc
    rcases List.mem_append.mp hc with h1 | h1
    · exact ih c h1
    · simp only [List.mem_singleton] at h1
      subst h1
      rw [digitChar_toNat (Nat.mod_lt _ (by omega))]
      omega

theorem natDigits_ne_nil (n : Nat) : natDigits n ≠ [] := by
  induction n using natDigits.induct with
  | case1 n h => rw [natDigits, dif_pos h]; simp
  | case2 n h ih => rw [natDigits, dif_neg h]; simp

theorem digitsVal_go (n : Nat) (a : Nat) :
    (natDigits n).foldl (fun a c => a * 10 + (c.toNat - 48)) a =
      a * 10 ^ (natDigits n).length + n := by
  induction n using natDigits.induct generalizing a with
  | case1 n h =>
    rw [natDigits, dif_pos h]
    simp [digitChar_toNat h]
  | case2 n h ih =>
    rw [natDigits, dif_neg h]
    rw [List.foldl_append, ih a]
    simp only [List.foldl_cons, List.foldl_nil, List.length_append,
      List.length_singleton]
    rw [digitChar_toNat (Nat.mod_lt _ (by omega)), pow_succ]
    have e1 : 48 + n % 10 - 48 = n % 10 := by omega
    rw [e1]
    have e2 : 10 * (n / 10) + n % 10 = n := Nat.div_add_mod n 10
    calc (a * 10 ^ (natDigits (n / 10)).length + n / 10) * 10 + n % 10
        = a * (10 ^ (natDigits (n / 10)).length * 10) + (10 * (n / 10) + n % 10) := by ring
      _ = a * (10 ^ (natDigits (n / 10)).length * 10) + n := by rw [e2]

theorem digitsVal_natDigits (n : Nat) : digitsVal (natDigits n) = n := by
  unfold digitsVal
  rw [digitsVal_go]
  simp



theorem not_ws_of_digitish {c : Char} (h1 : 48 ≤ c.toNat) (h2 : c.toNat ≤ 57) :
    jsWhitespace c = false := by
  by_contra hws
  rw [Bool.not_eq_false] at hws
  simp only [jsWhitespace, Bool.or_eq_true, decide_eq_true_eq, Bool.and_eq_true] at hws
  omega

theorem takeWhile_all {p : Char → Bool} {l : List Char} (h : ∀ c ∈ l, p c) :
    l.takeWhile p = l := by
  induction l with
  | nil => rfl
  | cons c cs ih =>
    rw [List.takeWhile_cons, if_pos (h c (by simp))]
    rw [ih (fun d hd => h d (by simp [hd]))]

theorem foldl_replicate_zero (m : Nat) :
    (List.replicate m '0').foldl (fun a c => a * 10 + (c.toNat - 48)) 0 = 0 := by
  induction m with
  | zero => rfl
  | succ m ih => simpa [List.replicate_succ] using ih

theorem parseIntM_pad (k n : Nat) :
    parseIntM (padStart k '0' (natDigits n)) = some (n : Int) := by
  have hdig : ∀ c ∈ padStart k '0' (natDigits n), 48 ≤ c.toNat ∧ c.toNat ≤ 57 := by
    intro c hc
    rcases List.mem_append.mp hc with h1 | h1
    · have := List.eq_of_mem_replicate h1
      subst this
      decide
    · exact natDigits_digits n c h1
  obtain ⟨c, cs, hL⟩ : ∃ c cs, padStart k '0' (natDigits n) = c :: cs := by
    cases h : padStart k '0' (natDigits n) with
    | nil =>
      exfalso
      have := natDigits_ne_nil n
      unfold padStart at h
      rcases List.append_eq_nil.mp h with ⟨-, h2⟩
      exact this h2
    | cons c cs => exact ⟨c, cs, rfl⟩
  rw [hL] at hdig
  have hc := hdig c (by simp)
  have hdrop : (c :: cs).dropWhile jsWhitespace = c :: cs :=
    dropWhile_eq_self_of_head (by
      intro d hd
      simp only [List.head?_cons, Option.mem_def, Option.some.injEq] at hd
      subst hd
      rw [not_ws_of_digitish hc.1 hc.2]
      simp)
  have hcm : ¬ c = '-' := by
    intro he
    subst he
    revert hc
    decide
  have hcp : ¬ c = '+' := by
    intro he
    subst he
    revert hc
    decide
  rw [hL]
  rw [parseIntM.eq_def, hdrop]
  simp only [if_neg hcm, if_neg hcp]
  rw [takeWhile_all (fun d hd => by
    have := hdig d hd
    simp [isAsciiDigit, this.1, this.2])]
  simp only [List.isEmpty_cons, if_neg]
  have hv : digitsVal (c :: cs) = n := by
    rw [← hL]
    unfold padStart digitsVal
    rw [List.foldl_append, foldl_replicate_zero, ← digitsVal]
    exact digitsVal_natDigits n
  rw [hv]
  simp

theorem splitOnCharCE_no_sep {sep : Char} {l : List Char} (h : sep ∉ l) :
    splitOnCharCE sep l = [l] := by
  induction l with
  | nil => rfl
  | cons c cs ih =>
    have hc : ¬ c = sep := fun he => h (by simp [he])
    rw [splitOnCharCE, if_neg hc, ih (fun hm => h (by simp [hm]))]

theorem splitOnCharCE_append {sep : Char} {A rest : List Char} (h : sep ∉ A) :
    splitOnCharCE sep (A ++ sep :: rest) = A :: splitOnCharCE sep rest := by
  induction A with
  | nil => simp [splitOnCharCE]
  | cons c cs ih =>
    have hc : ¬ c = sep := fun he => h (by simp [he])
    rw [List.cons_append, splitOnCharCE, if_neg hc,
      ih (fun hm => h (by simp [hm]))]



theorem jsTrunc_of_nonneg {q : ℚ} (h : 0 ≤ q) : jsTrunc q = ⌊q⌋ := by
  unfold jsTrunc
  rw [if_neg (not_lt.mpr h)]

theorem jsMod_eq {s b : ℚ} (hs : 0 ≤ s) (hb : 0 < b) :
    jsMod s b = s - b * (⌊s / b⌋ : ℚ) := by
  unfold jsMod
  rw [jsTrunc_of_nonneg (div_nonneg hs hb.le)]

theorem jsMod_nonneg {s b : ℚ} (hs : 0 ≤ s) (hb : 0 < b) : 0 ≤ jsMod s b := by
  rw [jsMod_eq hs hb]
  have h1 : (⌊s / b⌋ : ℚ) ≤ s / b := Int.floor_le _
  have h2 : b * (⌊s / b⌋ : ℚ) ≤ b * (s / b) := by
    exact mul_le_mul_of_nonneg_left h1 hb.le
  rw [mul_div_cancel₀ s hb.ne'] at h2
  linarith

theorem jsMod_lt {s b : ℚ} (hs : 0 ≤ s) (hb : 0 < b) : jsMod s b < b := by
  rw [jsMod_eq hs hb]
  have h1 : s / b - 1 < (⌊s / b⌋ : ℚ) := Int.sub_one_lt_floor _
  have h2 : b * (s / b - 1) < b * (⌊s / b⌋ : ℚ) := by
    exact mul_lt_mul_of_pos_left h1 hb
  rw [mul_sub, mul_div_cancel₀ s hb.ne', mul_one] at h2
  linarith



theorem pad_digits (k v : Nat) :
    ∀ c ∈ padStart k '0' (natDigits v), 48 ≤ c.toNat ∧ c.toNat ≤ 57 := by
  intro c hc
  rcases List.mem_append.mp hc with h1 | h1
  · have := List.eq_of_mem_replicate h1
    subst this
    decide
  · exact natDigits_digits v c h1

theorem colon_not_mem_pad (k v : Nat) : ':' ∉ padStart k '0' (natDigits v) := by
  intro h
  have := pad_digits k v ':' h
  revert this
  decide

theorem comma_not_mem_pad (k v : Nat) : ',' ∉ padStart k '0' (natDigits v) := by
  intro h
  have := pad_digits k v ',' h
  revert this
  decide

theorem parseTimestamp_formatTimestamp {s : ℚ} (hs : 0 ≤ s) :
    parseTimestamp (formatTimestamp s) = some ((⌊1000 * s⌋ : ℚ) / 1000) := by
  have h3600 : (0 : ℚ) < 3600 := by norm_num
  have h60 : (0 : ℚ) < 60 := by norm_num
  have h1 : (0 : ℚ) < 1 := by norm_num
  have hH0 : 0 ≤ ⌊s / 3600⌋ := Int.floor_nonneg.mpr (div_nonneg hs h3600.le)
  have hM0 : 0 ≤ ⌊jsMod s 3600 / 60⌋ :=
    Int.floor_nonneg.mpr (div_nonneg (jsMod_nonneg hs h3600) h60.le)
  have hS0 : 0 ≤ ⌊jsMod s 60⌋ := Int.floor_nonneg.mpr (jsMod_nonneg hs h60)
  have hMS0 : 0 ≤ ⌊jsMod s 1 * 1000⌋ :=
    Int.floor_nonneg.mpr (mul_nonneg (jsMod_nonneg hs h1) (by norm_num))
  have hfmt : formatTimestamp s =
      padStart 2 '0' (natDigits (⌊s / 3600⌋).toNat) ++ ':' ::
        (padStart 2 '0' (natDigits (⌊jsMod s 3600 / 60⌋).toNat) ++ ':' ::
          (padStart 2 '0' (natDigits (⌊jsMod s 60⌋).toNat) ++ ',' ::
            padStart 3 '0' (natDigits (⌊jsMod s 1 * 1000⌋).toNat))) := by
    simp only [formatTimestamp, intToChars]
    rw [if_neg (not_lt.mpr hH0), if_neg (not_lt.mpr hM0),
      if_neg (not_lt.mpr hS0), if_neg (not_lt.mpr hMS0)]
  have hrest3 : ':' ∉ padStart 2 '0' (natDigits (⌊jsMod s 60⌋).toNat) ++ ',' ::
      padStart 3 '0' (natDigits (⌊jsMod s 1 * 1000⌋).toNat) := by
    intro h
    rcases List.mem_append.mp h with h1 | h1
    · exact colon_not_mem_pad _ _ h1
    · rcases List.mem_cons.mp h1 with h2 | h2
      · exact absurd h2 (by decide)
      · exact colon_not_mem_pad _ _ h2
  rw [parseTimestamp, hfmt]
  rw [splitOnCharCE_append (colon_not_mem_pad 2 _),
    splitOnCharCE_append (colon_not_mem_pad 2 _),
    splitOnCharCE_no_sep hrest3]
  simp only [List.getD_cons_zero, List.getD_cons_succ]
  rw [splitOnCharCE_append (comma_not_mem_pad 2 _),
    splitOnCharCE_no_sep (comma_not_mem_pad 3 _)]
  simp only [List.getD_cons_zero, List.getD_cons_succ]
  rw [parseIntM_pad, parseIntM_pad, parseIntM_pad, parseIntM_pad]
  have hMeq : ⌊jsMod s 3600 / 60⌋ = ⌊s / 60⌋ - 60 * ⌊s / 3600⌋ := by
    have he : jsMod s 3600 / 60 = s / 60 - ((60 * ⌊s / 3600⌋ : ℤ) : ℚ) := by
      rw [jsMod_eq hs h3600]
      push_cast
      ring
    rw [he, Int.floor_sub_int]
  have hSeq : ⌊jsMod s 60⌋ = ⌊s⌋ - 60 * ⌊s / 60⌋ := by
    have he : jsMod s 60 = s - ((60 * ⌊s / 60⌋ : ℤ) : ℚ) := by
      rw [jsMod_eq hs h60]
      push_cast
      ring
    rw [he, Int.floor_sub_int]
  have hMSeq : ⌊jsMod s 1 * 1000⌋ = ⌊1000 * s⌋ - 1000 * ⌊s⌋ := by
    have he : jsMod s 1 * 1000 = 1000 * s - ((1000 * ⌊s⌋ : ℤ) : ℚ) := by
      rw [jsMod_eq hs h1, div_one]
      push_cast
      ring
    rw [he, Int.floor_sub_int]
  simp only [Option.some.injEq]
  rw [Int.toNat_of_nonneg hH0, Int.toNat_of_nonneg hM0,
    Int.toNat_of_nonneg hS0, Int.toNat_of_nonneg hMS0]
  rw [hMeq, hSeq, hMSeq]
  push_cast
  ring

/-- C8: for every non-negative number of seconds s, parsing the plain
comma-decimal rendering of s yields s back to millisecond precision. -/
theorem c8_timestamp_roundtrip (s : ℚ) (hs : 0 ≤ s) :
    ∃ q : ℚ, parseTimestamp (formatTimestamp s) = some q ∧ |q - s| < 1 / 1000 := by
  refine ⟨_, parseTimestamp_formatTimestamp hs, ?_⟩
  have h1 : (⌊1000 * s⌋ : ℚ) ≤ 1000 * s := Int.floor_le _
  have h2 : 1000 * s - 1 < (⌊1000 * s⌋ : ℚ) := Int.sub_one_lt_floor _
  rw [abs_lt]
  constructor
  · linarith
  · linarith

/-- Witness for C8 at the concrete input 9/5 seconds. -/
theorem c8_timestamp_roundtrip_witness :
    0 ≤ (9 / 5 : ℚ) ∧
      ∃ q : ℚ, parseTimestamp (formatTimestamp (9 / 5)) = some q ∧
        |q - 9 / 5| < 1 / 1000 :=
  ⟨by norm_num, c8_timestamp_roundtrip (9 / 5) (by norm_num)⟩

/-! ### Segmentation conservation -/

theorem splitScan_flatten (l acc : List Char) :
    (splitScan l acc).flatten = acc.reverse ++ l := by
  induction l, acc using splitScan.induct with
  | case1 acc => simp [splitScan]
  | case2 c cs acc h ih =>
    rw [splitScan, if_pos h]
    simp only [List.flatten_cons, ih]
    simp only [List.reverse_nil, List.nil_append, List.cons_append, List.append_assoc]
    rw [List.takeWhile_append_dropWhile]
  | case3 cs acc h ih =>
    rw [splitScan, if_neg h, if_pos rfl]
    simp only [List.flatten_cons, ih]
    simp only [List.reverse_nil, List.nil_append, List.cons_append, List.append_assoc]
    rw [List.takeWhile_append_dropWhile]
  | case4 c cs acc h h2 ih =>
    rw [splitScan, if_neg h, if_neg h2]
    rw [ih]
    simp

theorem sentenceLoop_flatten (parts : List (List Char)) (buffer : List Char) :
    ∃ w : List Char, (∀ c ∈ w, jsWhitespace c) ∧
      (sentenceLoop parts buffer).flatten ++ w = buffer ++ parts.flatten := by
  induction parts generalizing buffer with
  | nil =>
    by_cases h : jsTrim buffer ≠ []
    · refine ⟨[], by simp, ?_⟩
      rw [sentenceLoop, if_pos h]
      simp
    · refine ⟨buffer, ?_, ?_⟩
      · rw [not_not] at h
        exact fun c hc => jsTrim_eq_nil_iff.mp h c hc
      · rw [sentenceLoop, if_neg h]
        simp
  | cons part rest ih =>
    rw [sentenceLoop]
    by_cases hp : part = []
    · rw [if_pos hp]
      obtain ⟨w, hw, he⟩ := ih buffer
      exact ⟨w, hw, by rw [he]; simp [hp]⟩
    · rw [if_neg hp]
      by_cases ht : part.all (fun c => isSentenceTerminal c || c = '\n')
      · rw [if_pos ht]
        obtain ⟨w, hw, he⟩ := ih []
        refine ⟨w, hw, ?_⟩
        simp only [List.flatten_cons, List.append_assoc]
        rw [he]
        simp
      · rw [if_neg ht]
        obtain ⟨w, hw, he⟩ := ih (buffer ++ part)
        refine ⟨w, hw, ?_⟩
        rw [he]
        simp

theorem splitBySentences_flatten (text : List Char) :
    ∃ w : List Char, (∀ c ∈ w, jsWhitespace c) ∧
      (splitBySentences text).flatten ++ w = text.filter (· ≠ '\r') := by
  unfold splitBySentences
  obtain ⟨w, hw, he⟩ := sentenceLoop_flatten (splitScan (text.filter (· ≠ '\r')) []) []
  refine ⟨w, hw, ?_⟩
  rw [he, splitScan_flatten]
  simp

/-- C9 (amended): concatenating the fragments of the sentence segmenter
reproduces the input with carriage returns removed, up to a dropped
trailing whitespace-only remainder; runs of whitespace inside fragments
are preserved, not collapsed (collapsing happens later, in the line
wrapper). -/
theorem c9_segmentation_conservation (text : List Char) :
    ∃ w : List Char, (∀ c ∈ w, jsWhitespace c) ∧
      (splitBySentences text).flatten ++ w = text.filter (· ≠ '\r') :=
  splitBySentences_flatten text

/-- C9 counterexample: on the input "a  b" the segmenter emits the
single fragment "a  b" unchanged, so the concatenation of fragments is
not the input with whitespace runs collapsed. -/
theorem c9_counterexample :
    (splitBySentences ("a  b".toList)).flatten = ("a  b".toList) ∧
      (splitBySentences ("a  b".toList)).flatten ≠ collapseWs ("a  b".toList) := by
  constructor
  · simp [splitBySentences, splitScan, sentenceLoop, isSentenceTerminal, jsTrim,
      jsWhitespace]
  · simp [splitBySentences, splitScan, sentenceLoop, isSentenceTerminal, jsTrim,
      jsWhitespace, collapseWs, collapseWsGo]

/-! ### Packing: the greedy cue packer -/

theorem segGo_decorate (maxC maxL budget : Nat) (sentences : List (List Char)) :
    ∀ (cur : List Char) (idx : Nat), jsTrim cur = cur →
      segGo maxC maxL budget sentences cur idx =
        decorate maxC maxL idx
          (specPack budget ((sentences.map jsTrim).filter (· ≠ [])) cur) := by
  induction sentences with
  | nil =>
    intro cur idx hcur
    rw [segGo]
    by_cases h : cur = []
    · subst h
      norm_num [specPack, decorate]
      rfl
    · rw [if_pos (by rw [hcur]; exact h)]
      simp only [List.map_nil, List.filter_nil, specPack, if_pos h, decorate]
  | cons s rest ih =>
    intro cur idx hcur
    rw [segGo]
    by_cases hts : jsTrim s = []
    · rw [if_pos hts]
      rw [ih cur idx hcur]
      congr 1
      simp [List.filter_cons, hts]
    · rw [if_neg hts]
      have hfil : ((s :: rest).map jsTrim).filter (· ≠ []) =
          jsTrim s :: ((rest.map jsTrim).filter (· ≠ [])) := by
        simp [List.filter_cons, hts]
      rw [hfil]
      by_cases hb : cur ≠ [] ∧ budget < (cur ++ jsTrim s).length
      · rw [if_pos hb, specPack, if_pos hb]
        rw [decorate]
        congr 1
        exact ih (jsTrim s) (idx + 1) (jsTrim_idem s)
      · rw [if_neg hb, specPack, if_neg hb]
        exact ih (cur ++ jsTrim s) idx (jsTrim_append hcur (jsTrim_idem s))

theorem splitIntoSegments_decorate (script : List Char)
    (config : SubtitleGenerationNodeConfig) :
    splitIntoSegments script config =
      decorate (config.maxCharsPerLine?.getD 42) (config.maxLines?.getD 2) 1
        (specPack (config.maxCharsPerLine?.getD 42 * config.maxLines?.getD 2)
          (scriptFragments script) []) := by
  unfold splitIntoSegments scriptFragments
  exact segGo_decorate _ _ _ _ [] 1 rfl

theorem specPack_flatten (budget : Nat) (fs : List (List Char)) :
    ∀ buf, (specPack budget fs buf).flatten = buf ++ fs.flatten := by
  induction fs with
  | nil =>
    intro buf
    rw [specPack]
    by_cases h : buf ≠ []
    · rw [if_pos h]; simp
    · rw [if_neg h]; rw [not_not] at h; simp [h]
  | cons f fs ih =>
    intro buf
    rw [specPack]
    by_cases h : buf ≠ [] ∧ budget < (buf ++ f).length
    · rw [if_pos h]
      simp only [List.flatten_cons, ih f, List.append_assoc]
    · rw [if_neg h]
      rw [ih (buf ++ f)]
      simp

theorem specPack_buf_mem (budget : Nat) (fs : List (List Char)) :
    ∀ buf, buf ≠ [] → budget < buf.length → (∀ g ∈ fs, g ≠ []) →
      buf ∈ specPack budget fs buf := by
  induction fs with
  | nil =>
    intro buf hne _ _
    rw [specPack, if_pos hne]
    simp
  | cons f fs ih =>
    intro buf hne hlen hall
    rw [specPack]
    have hcond : buf ≠ [] ∧ budget < (buf ++ f).length := by
      refine ⟨hne, ?_⟩
      rw [List.length_append]
      omega
    rw [if_pos hcond]
    simp

theorem specPack_overlong_alone (budget : Nat) (fs : List (List Char)) :
    ∀ buf, (∀ g ∈ fs, g ≠ []) → ∀ f ∈ fs, budget < f.length →
      f ∈ specPack budget fs buf := by
  induction fs with
  | nil => intro buf _ f hf; simp at hf
  | cons g gs ih =>
    intro buf hall f hf hlen
    rw [specPack]
    rcases List.mem_cons.mp hf with he | hmem
    · subst he
      by_cases h : buf ≠ [] ∧ budget < (buf ++ f).length
      · rw [if_pos h]
        exact List.mem_cons_of_mem _
          (specPack_buf_mem budget gs f (hall f hf) hlen
            (fun g hg => hall g (List.mem_cons_of_mem _ hg)))
      · rw [if_neg h]
        have hbuf : buf = [] := by
          by_contra hb
          exact h ⟨hb, by rw [List.length_append]; omega⟩
        subst hbuf
        rw [List.nil_append]
        exact specPack_buf_mem budget gs f (hall f hf) hlen
          (fun g hg => hall g (List.mem_cons_of_mem _ hg))
    · by_cases h : buf ≠ [] ∧ budget < (buf ++ g).length
      · rw [if_pos h]
        exact List.mem_cons_of_mem _
          (ih g (fun x hx => hall x (List.mem_cons_of_mem _ hx)) f hmem hlen)
      · rw [if_neg h]
        exact ih (buf ++ g) (fun x hx => hall x (List.mem_cons_of_mem _ hx)) f hmem hlen



theorem flatten_eq_nil_iff_of_ne {g : List (List Char)} (h : ∀ x ∈ g, x ≠ []) :
    g.flatten = [] ↔ g = [] := by
  cases g with
  | nil => simp
  | cons x xs =>
    simp only [List.flatten_cons, List.cons_ne_nil, iff_false]
    intro hn
    rcases List.append_eq_nil.mp hn with ⟨h1, -⟩
    exact h x (by simp) h1

theorem specPack_eq_packGroups (budget : Nat) (fs : List (List Char)) :
    ∀ g : List (List Char), (∀ x ∈ g, x ≠ []) → (∀ f ∈ fs, f ≠ []) →
      specPack budget fs g.flatten = (packGroups budget fs g).map List.flatten := by
  induction fs with
  | nil =>
    intro g hg _
    rw [specPack, packGroups]
    by_cases h : g = []
    · subst h
      simp
    · rw [if_pos (by rwa [ne_eq, flatten_eq_nil_iff_of_ne hg]), if_pos h]
      simp
  | cons a as ih =>
    intro g hg hf
    rw [specPack, packGroups]
    have hffs : ∀ x ∈ as, x ≠ [] := fun x hx => hf x (List.mem_cons_of_mem _ hx)
    have ha : a ≠ [] := hf a (by simp)
    have hiff : (g.flatten ≠ [] ∧ budget < (g.flatten ++ a).length) ↔
        (g ≠ [] ∧ budget < (g.flatten ++ a).length) := by
      rw [ne_eq, ne_eq, flatten_eq_nil_iff_of_ne hg]
    by_cases h : g ≠ [] ∧ budget < (g.flatten ++ a).length
    · rw [if_pos (hiff.mpr h), if_pos h]
      rw [List.map_cons]
      congr 1
      have := ih [a] (by intro x hx; simp at hx; subst hx; exact ha) hffs
      simpa using this
    · rw [if_neg (fun hc => h (hiff.mp hc)), if_neg h]
      have := ih (g ++ [a]) (by
        intro x hx
        rcases List.mem_append.mp hx with h1 | h1
        · exact hg x h1
        · simp at h1; subst h1; exact ha) hffs
      rw [← this]
      simp

theorem decorate_map_text (maxC maxL : Nat) :
    ∀ (bs : List (List Char)) (idx : Nat),
      (decorate maxC maxL idx bs).map (fun s => s.text) =
        bs.map (fun b => formatSegmentText b maxC maxL) := by
  intro bs
  induction bs with
  | nil => intro idx; rfl
  | cons b bs ih =>
    intro idx
    rw [decorate, List.map_cons, List.map_cons, ih]

theorem scriptFragments_ne_nil (script : List Char) :
    ∀ f ∈ scriptFragments script, f ≠ [] := by
  intro f hf
  unfold scriptFragments at hf
  have := List.of_mem_filter hf
  simpa using this



/-- C5: the cue packer of splitIntoSegments accumulates the trimmed
non-empty fragments greedily, closing the buffer exactly when appending
the next fragment would exceed the budget and seeding the new buffer
with that fragment (first conjunct: the produced cue texts are exactly
the wrap of the buffers of the spec-worded greedy packer); the final
non-empty buffer is always closed, so no fragment is lost (second
conjunct: concatenating all cue buffers yields all fragments); and a
fragment longer than the budget is placed alone in its own cue (third
conjunct). -/
theorem c5_greedy_packing (script : List Char) (config : SubtitleGenerationNodeConfig) :
    ((splitIntoSegments script config).map (fun s => s.text) =
        (specPack (config.maxCharsPerLine?.getD 42 * config.maxLines?.getD 2)
            (scriptFragments script) []).map
          (fun b => formatSegmentText b (config.maxCharsPerLine?.getD 42)
            (config.maxLines?.getD 2))) ∧
      ((specPack (config.maxCharsPerLine?.getD 42 * config.maxLines?.getD 2)
          (scriptFragments script) []).flatten = (scriptFragments script).flatten) ∧
      (∀ f ∈ scriptFragments script,
        config.maxCharsPerLine?.getD 42 * config.maxLines?.getD 2 < f.length →
          f ∈ specPack (config.maxCharsPerLine?.getD 42 * config.maxLines?.getD 2)
            (scriptFragments script) []) := by
  refine ⟨?_, ?_, ?_⟩
  · rw [splitIntoSegments_decorate]
    exact decorate_map_text _ _ _ 1
  · rw [specPack_flatten]
    rfl
  · intro f hf hlen
    exact specPack_overlong_alone _ _ [] (scriptFragments_ne_nil script) f hf hlen

/-- Witness for C5: with budget 6 the nine-character fragment of the
script "abcdefgh!xy!" is placed alone as its own cue. -/
theorem c5_greedy_packing_witness :
    ("abcdefgh!".toList) ∈ specPack 6 (scriptFragments ("abcdefgh!xy!".toList)) [] := by
  have h := (c5_greedy_packing ("abcdefgh!xy!".toList)
    {maxCharsPerLine? := some 3, maxLines? := some 2}).2.2
  have hm : ("abcdefgh!".toList) ∈ scriptFragments ("abcdefgh!xy!".toList) := by
    simp [scriptFragments, splitBySentences, splitScan, sentenceLoop,
      isSentenceTerminal, jsTrim, jsWhitespace]
  have h2 := h ("abcdefgh!".toList) hm (by simp)
  simpa using h2

/-- C10: when the packer places several fragments into one cue, the
cue's pre-wrap text is the character-for-character concatenation of the
trimmed fragments of its group, with no separator inserted between
them. -/
theorem c10_no_separator_concat (script : List Char)
    (config : SubtitleGenerationNodeConfig) :
    (splitIntoSegments script config).map (fun s => s.text) =
      (packGroups (config.maxCharsPerLine?.getD 42 * config.maxLines?.getD 2)
          (scriptFragments script) []).map
        (fun group => formatSegmentText group.flatten
          (config.maxCharsPerLine?.getD 42) (config.maxLines?.getD 2)) := by
  rw [splitIntoSegments_decorate, decorate_map_text]
  have h := specPack_eq_packGroups
    (config.maxCharsPerLine?.getD 42 * config.maxLines?.getD 2)
    (scriptFragments script) [] (by simp) (scriptFragments_ne_nil script)
  rw [show (([] : List (List Char)).flatten) = ([] : List Char) from rfl] at h
  rw [h, List.map_map]
  rfl

/-! ### Line wrapping -/

theorem collapseWsGo_mem {c : Char} :
    ∀ (flag : Bool) (l : List Char), c ∈ collapseWsGo flag l →
      c = ' ' ∨ (c ∈ l ∧ jsWhitespace c = false) := by
  intro flag l
  induction l generalizing flag with
  | nil => intro h; simp [collapseWsGo] at h
  | cons d ds ih =>
    intro h
    rw [collapseWsGo] at h
    by_cases hw : jsWhitespace d
    · rw [if_pos hw] at h
      by_cases hf : flag
      · rw [if_pos hf] at h
        rcases ih true h with h1 | h1
        · exact Or.inl h1
        · exact Or.inr ⟨List.mem_cons_of_mem _ h1.1, h1.2⟩
      · rw [if_neg hf] at h
        rcases List.mem_cons.mp h with h1 | h1
        · exact Or.inl h1
        · rcases ih true h1 with h2 | h2
          · exact Or.inl h2
          · exact Or.inr ⟨List.mem_cons_of_mem _ h2.1, h2.2⟩
    · rw [if_neg hw] at h
      rcases List.mem_cons.mp h with h1 | h1
      · subst h1
        exact Or.inr ⟨by simp, by simpa using hw⟩
      · rcases ih false h1 with h2 | h2
        · exact Or.inl h2
        · exact Or.inr ⟨List.mem_cons_of_mem _ h2.1, h2.2⟩

theorem newline_not_mem_sanitized (text : List Char) :
    '\n' ∉ jsTrim (collapseWs text) := by
  intro h
  have h1 := mem_jsTrim h
  rcases collapseWsGo_mem false text h1 with h2 | h2
  · exact absurd h2 (by decide)
  · exact absurd h2.2 (by decide)

theorem wrapGo_line_length {maxC maxL : Nat} (hC : 1 ≤ maxC) :
    ∀ (cs cur : List Char) (lns : List (List Char)),
      cur.length < maxC → (∀ l ∈ lns, l.length ≤ maxC) →
      ∀ l ∈ wrapGo maxC maxL cs cur lns, l.length ≤ maxC := by
  intro cs
  induction cs with
  | nil =>
    intro cur lns hcur hlns l hl
    rw [wrapGo] at hl
    by_cases h : jsTrim cur ≠ [] ∧ lns.length < maxL
    · rw [if_pos h] at hl
      rcases List.mem_append.mp hl with h1 | h1
      · exact hlns l h1
      · simp only [List.mem_singleton] at h1
        subst h1
        exact le_trans (jsTrim_length_le cur) (by omega)
    · rw [if_neg h] at hl
      exact hlns l hl
  | cons c cs ih =>
    intro cur lns hcur hlns l hl
    rw [wrapGo] at hl
    by_cases hbp : maxC ≤ cur.length ∧ isBreakPoint c
    · exact absurd hbp.1 (by omega)
    · rw [if_neg hbp] at hl
      by_cases hfull : maxC ≤ (cur ++ [c]).length
      · rw [if_pos hfull] at hl
        have hpush : ∀ l' ∈ lns ++ [jsTrim (cur ++ [c])], l'.length ≤ maxC := by
          intro l' hl'
          rcases List.mem_append.mp hl' with h1 | h1
          · exact hlns l' h1
          · simp only [List.mem_singleton] at h1
            subst h1
            refine le_trans (jsTrim_length_le _) ?_
            rw [List.length_append]
            simp only [List.length_singleton]
            omega
        by_cases hmax : (lns ++ [jsTrim (cur ++ [c])]).length = maxL
        · rw [if_pos hmax] at hl
          exact hpush l hl
        · rw [if_neg hmax] at hl
          exact ih [] _ (by simp only [List.length_nil]; omega) hpush l hl
      · rw [if_neg hfull] at hl
        by_cases hmax : lns.length = maxL
        · rw [if_pos hmax] at hl
          exact hlns l hl
        · rw [if_neg hmax] at hl
          refine ih (cur ++ [c]) lns ?_ hlns l hl
          rw [List.length_append] at hfull ⊢
          simp only [List.length_singleton] at hfull ⊢
          omega



theorem mem_of_mem_jsTrim {c : Char} {l : List Char} : c ∈ jsTrim l → c ∈ l :=
  mem_jsTrim

theorem wrapGo_chars {maxC maxL : Nat} {P : Char → Prop} :
    ∀ (cs cur : List Char) (lns : List (List Char)),
      (∀ c ∈ cs, P c) → (∀ c ∈ cur, P c) → (∀ l ∈ lns, ∀ c ∈ l, P c) →
      ∀ l ∈ wrapGo maxC maxL cs cur lns, ∀ c ∈ l, P c := by
  intro cs
  induction cs with
  | nil =>
    intro cur lns _ hcur hlns l hl
    rw [wrapGo] at hl
    by_cases h : jsTrim cur ≠ [] ∧ lns.length < maxL
    · rw [if_pos h] at hl
      rcases List.mem_append.mp hl with h1 | h1
      · exact hlns l h1
      · simp only [List.mem_singleton] at h1
        subst h1
        exact fun c hc => hcur c (mem_of_mem_jsTrim hc)
    · rw [if_neg h] at hl
      exact hlns l hl
  | cons c cs ih =>
    intro cur lns hcs hcur hlns l hl
    have hc : P c := hcs c (by simp)
    have hcs' : ∀ d ∈ cs, P d := fun d hd => hcs d (List.mem_cons_of_mem _ hd)
    rw [wrapGo] at hl
    by_cases hbp : maxC ≤ cur.length ∧ isBreakPoint c
    · rw [if_pos hbp] at hl
      have hlns0 : ∀ l' ∈ lns ++ [jsTrim cur], ∀ d ∈ l', P d := by
        intro l' hl' d hd
        rcases List.mem_append.mp hl' with h1 | h1
        · exact hlns l' h1 d hd
        · simp only [List.mem_singleton] at h1
          subst h1
          exact hcur d (mem_of_mem_jsTrim hd)
      by_cases hsep : isSeparatorChar c
      · rw [if_pos hsep] at hl
        exact ih [] _ hcs' (by simp) hlns0 l hl
      · rw [if_neg hsep] at hl
        by_cases hone : maxC ≤ ([c] : List Char).length
        · rw [if_pos hone] at hl
          have hlns1 : ∀ l' ∈ (lns ++ [jsTrim cur]) ++ [jsTrim [c]], ∀ d ∈ l', P d := by
            intro l' hl' d hd
            rcases List.mem_append.mp hl' with h1 | h1
            · exact hlns0 l' h1 d hd
            · simp only [List.mem_singleton] at h1
              subst h1
              have := mem_of_mem_jsTrim hd
              simp only [List.mem_singleton] at this
              subst this
              exact hc
          by_cases hm : ((lns ++ [jsTrim cur]) ++ [jsTrim [c]]).length = maxL
          · rw [if_pos hm] at hl
            exact hlns1 l hl
          · rw [if_neg hm] at hl
            exact ih [] _ hcs' (by simp) hlns1 l hl
        · rw [if_neg hone] at hl
          by_cases hm : (lns ++ [jsTrim cur]).length = maxL
          · rw [if_pos hm] at hl
            exact hlns0 l hl
          · rw [if_neg hm] at hl
            refine ih [c] _ hcs' ?_ hlns0 l hl
            intro d hd
            simp only [List.mem_singleton] at hd
            subst hd
            exact hc
    · rw [if_neg hbp] at hl
      have hcur1 : ∀ d ∈ cur ++ [c], P d := by
        intro d hd
        rcases List.mem_append.mp hd with h1 | h1
        · exact hcur d h1
        · simp only [List.mem_singleton] at h1
          subst h1
          exact hc
      by_cases hfull : maxC ≤ (cur ++ [c]).length
      · rw [if_pos hfull] at hl
        have hlns1 : ∀ l' ∈ lns ++ [jsTrim (cur ++ [c])], ∀ d ∈ l', P d := by
          intro l' hl' d hd
          rcases List.mem_append.mp hl' with h1 | h1
          · exact hlns l' h1 d hd
          · simp only [List.mem_singleton] at h1
            subst h1
            exact hcur1 d (mem_of_mem_jsTrim hd)
        by_cases hm : (lns ++ [jsTrim (cur ++ [c])]).length = maxL
        · rw [if_pos hm] at hl
          exact hlns1 l hl
        · rw [if_neg hm] at hl
          exact ih [] _ hcs' (by simp) hlns1 l hl
      · rw [if_neg hfull] at hl
        by_cases hm : lns.length = maxL
        · rw [if_pos hm] at hl
          exact hlns l hl
        · rw [if_neg hm] at hl
          exact ih (cur ++ [c]) lns hcs' hcur1 hlns l hl

theorem splitOnCharCE_joinSep {sep : Char} :
    ∀ L : List (List Char), L ≠ [] → (∀ l ∈ L, sep ∉ l) →
      splitOnCharCE sep (joinSep sep L) = L := by
  intro L
  induction L with
  | nil => intro h; exact absurd rfl h
  | cons l ls ih =>
    intro _ hmem
    cases ls with
    | nil =>
      rw [joinSep]
      exact splitOnCharCE_no_sep (hmem l (by simp))
    | cons l2 ls2 =>
      have hj : joinSep sep (l :: l2 :: ls2) = l ++ sep :: joinSep sep (l2 :: ls2) := rfl
      rw [hj, splitOnCharCE_append (hmem l (by simp))]
      rw [ih (fun h => nomatch h) (fun x hx => hmem x (List.mem_cons_of_mem _ hx))]

theorem joinSep_length_lt {sep : Char} {maxC : Nat} :
    ∀ L : List (List Char), L ≠ [] → (∀ l ∈ L, l.length ≤ maxC) →
      (joinSep sep L).length < L.length * (maxC + 1) := by
  intro L
  induction L with
  | nil => intro h; exact absurd rfl h
  | cons l ls ih =>
    intro _ hmem
    cases ls with
    | nil =>
      rw [joinSep]
      have := hmem l (by simp)
      simp only [List.length_cons, List.length_nil]
      omega
    | cons l2 ls2 =>
      have hj : joinSep sep (l :: l2 :: ls2) = l ++ sep :: joinSep sep (l2 :: ls2) := rfl
      rw [hj]
      have h1 := hmem l (by simp)
      have h2 := ih (fun h => nomatch h)
        (fun x hx => hmem x (List.mem_cons_of_mem _ hx))
      rw [List.length_append, List.length_cons]
      simp only [List.length_cons] at h2 ⊢
      have he : (ls2.length + 1 + 1) * (maxC + 1) =
          (ls2.length + 1) * (maxC + 1) + (maxC + 1) := by ring
      rw [he]
      omega



theorem formatSegmentText_lines (text : List Char) (maxC maxL : Nat)
    (hC : 1 ≤ maxC) (hL : 1 ≤ maxL) :
    (linesOf (formatSegmentText text maxC maxL)).length ≤ maxL ∧
      (∀ l ∈ linesOf (formatSegmentText text maxC maxL), l.length ≤ maxC) ∧
      (formatSegmentText text maxC maxL).length < maxL * (maxC + 1) := by
  have hmul : maxC + 1 ≤ maxL * (maxC + 1) := by
    calc maxC + 1 = 1 * (maxC + 1) := by ring
      _ ≤ maxL * (maxC + 1) := Nat.mul_le_mul_right _ hL
  unfold formatSegmentText linesOf
  by_cases hshort : (jsTrim (collapseWs text)).length ≤ maxC
  · rw [if_pos hshort]
    rw [splitOnCharCE_no_sep (newline_not_mem_sanitized text)]
    refine ⟨by simpa using hL, ?_, ?_⟩
    · intro l hl
      simp only [List.mem_singleton] at hl
      subst hl
      exact hshort
    · omega
  · rw [if_neg hshort]
    set L := (wrapGo maxC maxL (jsTrim (collapseWs text)) [] []).take maxL with hLdef
    have hlen : ∀ l ∈ L, l.length ≤ maxC := by
      intro l hl
      exact wrapGo_line_length hC _ [] [] (by simpa using hC) (by simp) l
        (List.mem_of_mem_take hl)
    have hchars : ∀ l ∈ L, '\n' ∉ l := by
      intro l hl hc
      exact (@wrapGo_chars maxC maxL (fun c => c ≠ '\n')
        (jsTrim (collapseWs text)) [] []
        (fun c hc heq => newline_not_mem_sanitized text (heq ▸ hc))
        (by simp) (by simp) l (List.mem_of_mem_take hl) '\n' hc) rfl
    by_cases hnil : L = []
    · rw [hnil]
      have he1 : splitOnCharCE '\n' (joinSep '\n' ([] : List (List Char))) = [[]] := rfl
      refine ⟨?_, ?_, ?_⟩
      · rw [he1]
        simpa using hL
      · intro l hl
        rw [he1] at hl
        simp only [List.mem_singleton] at hl
        subst hl
        simp
      · show (joinSep '\n' ([] : List (List Char))).length < maxL * (maxC + 1)
        have he2 : (joinSep '\n' ([] : List (List Char))).length = 0 := rfl
        rw [he2]
        omega
    · rw [splitOnCharCE_joinSep L hnil hchars]
      refine ⟨?_, hlen, ?_⟩
      · rw [hLdef]
        exact List.length_take_le _ _
      · calc (joinSep '\n' L).length < L.length * (maxC + 1) :=
            joinSep_length_lt L hnil hlen
          _ ≤ maxL * (maxC + 1) := by
            refine Nat.mul_le_mul_right _ ?_
            rw [hLdef]
            exact List.length_take_le _ _



theorem decorate_mem_text {maxC maxL : Nat} :
    ∀ (bs : List (List Char)) (idx : Nat) (s : SubtitleSegment),
      s ∈ decorate maxC maxL idx bs →
        ∃ b, s.text = formatSegmentText b maxC maxL := by
  intro bs
  induction bs with
  | nil => intro idx s h; simp [decorate] at h
  | cons b bs ih =>
    intro idx s h
    rw [decorate] at h
    rcases List.mem_cons.mp h with h1 | h1
    · exact ⟨b, by rw [h1]⟩
    · exact ih (idx + 1) s h1

/-- C2 (amended): for maxCharsPerLine and maxLines at least 1, every
cue's stored text has at most maxLines lines, each line at most
maxCharsPerLine characters, and total length below
maxLines * (maxCharsPerLine + 1); the plain renderer emits this text
verbatim, while the web-caption renderer joins the lines into a single
line bounded only by the total-length bound. -/
theorem c2_line_budget (script : List Char) (config : SubtitleGenerationNodeConfig)
    (hC : 1 ≤ config.maxCharsPerLine?.getD 42) (hL : 1 ≤ config.maxLines?.getD 2) :
    ∀ seg ∈ splitIntoSegments script config,
      (linesOf seg.text).length ≤ config.maxLines?.getD 2 ∧
        (∀ l ∈ linesOf seg.text, l.length ≤ config.maxCharsPerLine?.getD 42) ∧
        seg.text.length <
          config.maxLines?.getD 2 * (config.maxCharsPerLine?.getD 42 + 1) := by
  intro seg hseg
  rw [splitIntoSegments_decorate] at hseg
  obtain ⟨b, hb⟩ := decorate_mem_text _ _ _ hseg
  rw [hb]
  have h := formatSegmentText_lines b _ _ hC hL
  refine ⟨h.1, h.2.1, ?_⟩
  calc (formatSegmentText b (config.maxCharsPerLine?.getD 42)
        (config.maxLines?.getD 2)).length
      < config.maxLines?.getD 2 * (config.maxCharsPerLine?.getD 42 + 1) := h.2.2

/-- Witness for C2 at the default configuration and the script
"Hi.". -/
theorem c2_line_budget_witness :
    1 ≤ (({} : SubtitleGenerationNodeConfig).maxCharsPerLine?.getD 42) ∧
      1 ≤ (({} : SubtitleGenerationNodeConfig).maxLines?.getD 2) ∧
      ∀ seg ∈ splitIntoSegments ("Hi.".toList) {},
        (linesOf seg.text).length ≤ ({} : SubtitleGenerationNodeConfig).maxLines?.getD 2 ∧
          (∀ l ∈ linesOf seg.text,
            l.length ≤ ({} : SubtitleGenerationNodeConfig).maxCharsPerLine?.getD 42) ∧
          seg.text.length <
            ({} : SubtitleGenerationNodeConfig).maxLines?.getD 2 *
              (({} : SubtitleGenerationNodeConfig).maxCharsPerLine?.getD 42 + 1) :=
  ⟨by decide, by decide, c2_line_budget ("Hi.".toList) {} (by decide) (by decide)⟩

/-- C6: evaluation at the failing input.  Wrapping "abc,def" with
maxCharsPerLine 3 yields "abc" followed by ",de": the second line
starts with the stray comma, because the break-point branch of
formatSegmentText is unreachable (the buffer is flushed the moment it
reaches maxCharsPerLine), so the cut never happens at the comma and the
separator is never discarded, contrary to the claim. -/
theorem c6_break_point_divergence :
    formatSegmentText ("abc,def".toList) 3 2 = ("abc\n,de".toList) ∧
      formatSegmentText ("abc,def".toList) 3 2 ≠ ("abc\ndef".toList) := by
  constructor <;>
    simp [formatSegmentText, collapseWs, collapseWsGo, jsTrim, jsWhitespace,
      wrapGo, joinSep, isBreakPoint, isSeparatorChar]



/-- C2 counterexample: with maxCharsPerLine 3 and maxLines 2, the cue
text "abc\nd e" is rendered by the web-caption renderer as the single
line "abc d e" of length 7, which exceeds maxCharsPerLine, so the
per-line bound does not hold in every rendering. -/
theorem c2_counterexample :
    ("abc d e".toList) ∈ linesOf (generateVTT (assignTimestamps
        (splitIntoSegments ("abcd ef".toList)
          {maxCharsPerLine? := some 3, maxLines? := some 2})
        {maxCharsPerLine? := some 3, maxLines? := some 2})) ∧
      ¬ ("abc d e".toList).length ≤ 3 := by
  have hseg : splitIntoSegments ("abcd ef".toList)
      {maxCharsPerLine? := some 3, maxLines? := some 2} =
      [⟨1, [], [], ("abc\nd e".toList)⟩] := by
    simp [splitIntoSegments, splitBySentences, splitScan, sentenceLoop,
      isSentenceTerminal, segGo, jsTrim, jsWhitespace, formatSegmentText,
      collapseWs, collapseWsGo, wrapGo, joinSep, isBreakPoint, isSeparatorChar]
  have htimed : assignTimestamps [(⟨1, [], [], ("abc\nd e".toList)⟩ : SubtitleSegment)]
      {maxCharsPerLine? := some 3, maxLines? := some 2} =
      [⟨1, ("00:00:00,000".toList), ("00:00:01,800".toList), ("abc\nd e".toList)⟩] := by
    simp only [assignTimestamps, assignGo, Option.getD_none]
    have hfl : (List.filter (fun x => decide (x ≠ '\n')) ("abc\nd e".toList)).length = 6 := by
      decide
    rw [hfl]
    have hdur : (9 / 5 : ℚ) ⊔ (3 : ℚ) ⊓ ((6 : ℚ) / (29 / 5)) = 9 / 5 := by
      rw [show ((6 : ℚ) / (29 / 5)) = 30 / 29 by norm_num]
      rw [min_eq_right (by norm_num), max_eq_left (by norm_num)]
    rw [show ((6 : Nat) : ℚ) = (6 : ℚ) by norm_num, hdur, zero_add]
    simp only [List.cons.injEq, and_true, SubtitleSegment.mk.injEq, true_and]
    constructor
    · norm_num [formatTimestamp, jsMod, jsTrunc]
      simp [padStart, intToChars, natDigits, Nat.digitChar]
    · norm_num [formatTimestamp, jsMod, jsTrunc]
      simp [padStart, intToChars, natDigits, Nat.digitChar]
  have hvtt : generateVTT
      [(⟨1, ("00:00:00,000".toList), ("00:00:01,800".toList), ("abc\nd e".toList)⟩ : SubtitleSegment)] =
      ("WEBVTT\n\n00:00:00.000 --> 00:00:01.800\nabc d e\n".toList) := by
    simp [generateVTT, replaceFirst, joinSep]
  rw [hseg, htimed, hvtt]
  constructor
  · simp [linesOf, splitOnCharCE]
  · simp

/-! ### Timeline assignment -/

theorem clockAt_cons (sp mn mx : ℚ) (seg : SubtitleSegment)
    (rest : List SubtitleSegment) (i : Nat) :
    clockAt sp mn mx (seg :: rest) (i + 1) =
      cueDuration sp mn mx seg.text + clockAt sp mn mx rest i := by
  induction i with
  | zero =>
    rw [clockAt, clockAt, clockAt]
    simp [List.getD]
  | succ i ih =>
    rw [clockAt, ih, clockAt]
    have hg : (seg :: rest).getD (i + 1) ⟨0, [], [], []⟩ = rest.getD i ⟨0, [], [], []⟩ := by
      simp [List.getD]
    rw [hg]
    ring

theorem clockAt_nonneg {sp mn mx : ℚ} (h0 : 0 ≤ mn)
    (segments : List SubtitleSegment) (i : Nat) :
    0 ≤ clockAt sp mn mx segments i := by
  induction i with
  | zero => rw [clockAt]
  | succ i ih =>
    rw [clockAt]
    have : mn ≤ cueDuration sp mn mx ((segments.getD i ⟨0, [], [], []⟩).text) :=
      le_max_left _ _
    linarith

theorem cueDuration_le {sp mn mx : ℚ} (hmm : mn ≤ mx) (text : List Char) :
    cueDuration sp mn mx text ≤ mx := by
  unfold cueDuration
  exact max_le hmm (min_le_left _ _)

theorem assignGo_length (sp mn mx : ℚ) :
    ∀ (segments : List SubtitleSegment) (t : ℚ),
      (assignGo sp mn mx segments t).length = segments.length := by
  intro segments
  induction segments with
  | nil => intro t; rfl
  | cons seg rest ih =>
    intro t
    rw [assignGo]
    simp only [List.length_cons, ih]

theorem assignGo_getD (sp mn mx : ℚ) :
    ∀ (segments : List SubtitleSegment) (t : ℚ) (i : Nat), i < segments.length →
      (assignGo sp mn mx segments t).getD i ⟨0, [], [], []⟩ =
        { segments.getD i ⟨0, [], [], []⟩ with
            startTime := formatTimestamp (t + clockAt sp mn mx segments i),
            endTime := formatTimestamp (t + clockAt sp mn mx segments (i + 1)) } := by
  intro segments
  induction segments with
  | nil => intro t i h; simp at h
  | cons seg rest ih =>
    intro t i h
    rw [assignGo]
    cases i with
    | zero =>
      have h1 : clockAt sp mn mx (seg :: rest) 0 = 0 := rfl
      have h2 : clockAt sp mn mx (seg :: rest) 1 =
          cueDuration sp mn mx seg.text + clockAt sp mn mx rest 0 :=
        clockAt_cons sp mn mx seg rest 0
      rw [clockAt] at h2
      simp only [List.getD_cons_zero, h1, add_zero]
      rw [h2]
      simp only [add_zero]
      rfl
    | succ i =>
      have hlt : i < rest.length := by
        simp only [List.length_cons] at h
        omega
      have hg := ih (t + cueDuration sp mn mx seg.text) i hlt
      simp only [List.getD_cons_succ]
      have hd : cueDuration sp mn mx seg.text =
          mn ⊔ mx ⊓ (((seg.text.filter (· ≠ '\n')).length : ℚ) / sp) := rfl
      rw [← hd, hg, clockAt_cons sp mn mx seg rest i,
        clockAt_cons sp mn mx seg rest (i + 1)]
      simp only [add_assoc]



theorem decorate_length (maxC maxL : Nat) :
    ∀ (bs : List (List Char)) (idx : Nat),
      (decorate maxC maxL idx bs).length = bs.length := by
  intro bs
  induction bs with
  | nil => intro idx; rfl
  | cons b bs ih =>
    intro idx
    rw [decorate]
    simp only [List.length_cons, ih]

theorem decorate_getD_index (maxC maxL : Nat) :
    ∀ (bs : List (List Char)) (idx i : Nat), i < bs.length →
      ((decorate maxC maxL idx bs).getD i ⟨0, [], [], []⟩).index = idx + i := by
  intro bs
  induction bs with
  | nil => intro idx i h; simp at h
  | cons b bs ih =>
    intro idx i h
    rw [decorate]
    cases i with
    | zero => simp
    | succ i =>
      simp only [List.getD_cons_succ]
      rw [ih (idx + 1) i (by simp only [List.length_cons] at h; omega)]
      omega

theorem assignGo_getLast (sp mn mx : ℚ) (segments : List SubtitleSegment)
    (hne : segments ≠ []) :
    (assignGo sp mn mx segments 0).getLast? =
      some ((assignGo sp mn mx segments 0).getD (segments.length - 1)
        ⟨0, [], [], []⟩) := by
  have hlen := assignGo_length sp mn mx segments 0
  have hn : 0 < segments.length := List.length_pos.mpr hne
  have hidx : segments.length - 1 < (assignGo sp mn mx segments 0).length := by
    rw [hlen]
    omega
  rw [List.getLast?_eq_getElem?, hlen]
  rw [List.getElem?_eq_getElem hidx]
  rw [List.getD_eq_getElem]



/-- C3: the timeline assigner walks the cue list once starting the
clock at 0; for each cue the start timestamp renders the running clock,
the end timestamp renders the clock advanced by
clamp(charCount / readingSpeed, minDuration, maxDuration) where
charCount excludes newline markers; the clamped duration lies between
minDuration and maxDuration (for minDuration <= maxDuration); and the
total duration is the parsed end timestamp of the last cue, the
running clock truncated to milliseconds. -/
theorem c3_timeline_assigner (segments : List SubtitleSegment)
    (config : SubtitleGenerationNodeConfig)
    (hs : 0 < config.readingSpeed?.getD (29 / 5))
    (h0 : 0 ≤ config.minDuration?.getD (9 / 5))
    (hmm : config.minDuration?.getD (9 / 5) ≤ config.maxDuration?.getD 3) :
    (∀ i, i < segments.length →
      ((assignTimestamps segments config).getD i ⟨0, [], [], []⟩).startTime =
          formatTimestamp (clockAt (config.readingSpeed?.getD (29 / 5))
            (config.minDuration?.getD (9 / 5)) (config.maxDuration?.getD 3)
            segments i) ∧
        ((assignTimestamps segments config).getD i ⟨0, [], [], []⟩).endTime =
          formatTimestamp (clockAt (config.readingSpeed?.getD (29 / 5))
            (config.minDuration?.getD (9 / 5)) (config.maxDuration?.getD 3)
            segments (i + 1)) ∧
        clockAt (config.readingSpeed?.getD (29 / 5)) (config.minDuration?.getD (9 / 5))
            (config.maxDuration?.getD 3) segments (i + 1) =
          clockAt (config.readingSpeed?.getD (29 / 5)) (config.minDuration?.getD (9 / 5))
              (config.maxDuration?.getD 3) segments i +
            cueDuration (config.readingSpeed?.getD (29 / 5))
              (config.minDuration?.getD (9 / 5)) (config.maxDuration?.getD 3)
              ((segments.getD i ⟨0, [], [], []⟩).text) ∧
        config.minDuration?.getD (9 / 5) ≤
          cueDuration (config.readingSpeed?.getD (29 / 5))
            (config.minDuration?.getD (9 / 5)) (config.maxDuration?.getD 3)
            ((segments.getD i ⟨0, [], [], []⟩).text) ∧
        cueDuration (config.readingSpeed?.getD (29 / 5))
            (config.minDuration?.getD (9 / 5)) (config.maxDuration?.getD 3)
            ((segments.getD i ⟨0, [], [], []⟩).text) ≤
          config.maxDuration?.getD 3) ∧
      (segments ≠ [] →
        calculateTotalDuration (assignTimestamps segments config) =
          some ((⌊1000 * clockAt (config.readingSpeed?.getD (29 / 5))
              (config.minDuration?.getD (9 / 5)) (config.maxDuration?.getD 3)
              segments segments.length⌋ : ℚ) / 1000)) := by
  have hAT : assignTimestamps segments config =
      assignGo (config.readingSpeed?.getD (29 / 5)) (config.minDuration?.getD (9 / 5))
        (config.maxDuration?.getD 3) segments 0 := rfl
  constructor
  · intro i hi
    have hg := assignGo_getD (config.readingSpeed?.getD (29 / 5))
      (config.minDuration?.getD (9 / 5)) (config.maxDuration?.getD 3) segments 0 i hi
    rw [hAT, hg]
    refine ⟨by simp only [zero_add], by simp only [zero_add], ?_,
      le_max_left _ _, cueDuration_le hmm _⟩
    rw [clockAt]
  · intro hne
    rw [hAT, calculateTotalDuration,
      assignGo_getLast _ _ _ segments hne]
    have hn : 0 < segments.length := List.length_pos.mpr hne
    have hg := assignGo_getD (config.readingSpeed?.getD (29 / 5))
      (config.minDuration?.getD (9 / 5)) (config.maxDuration?.getD 3) segments 0
      (segments.length - 1) (by omega)
    rw [hg]
    simp only [zero_add]
    have hsucc : segments.length - 1 + 1 = segments.length := by omega
    rw [hsucc]
    exact parseTimestamp_formatTimestamp (clockAt_nonneg h0 segments segments.length)



/-- Witness for C3 at the default configuration and one segment. -/
theorem c3_timeline_assigner_witness :
    (0 < (({} : SubtitleGenerationNodeConfig).readingSpeed?.getD (29 / 5))) ∧
      (0 ≤ (({} : SubtitleGenerationNodeConfig).minDuration?.getD (9 / 5))) ∧
      (({} : SubtitleGenerationNodeConfig).minDuration?.getD (9 / 5) ≤
        ({} : SubtitleGenerationNodeConfig).maxDuration?.getD 3) ∧
      ((∀ i, i < ([(⟨1, [], [], ("Hi.".toList)⟩ : SubtitleSegment)]).length →
        ((assignTimestamps [(⟨1, [], [], ("Hi.".toList)⟩ : SubtitleSegment)] {}).getD i
            ⟨0, [], [], []⟩).startTime =
          formatTimestamp (clockAt (({} : SubtitleGenerationNodeConfig).readingSpeed?.getD (29 / 5))
            (({} : SubtitleGenerationNodeConfig).minDuration?.getD (9 / 5))
            (({} : SubtitleGenerationNodeConfig).maxDuration?.getD 3)
            [(⟨1, [], [], ("Hi.".toList)⟩ : SubtitleSegment)] i) ∧
        ((assignTimestamps [(⟨1, [], [], ("Hi.".toList)⟩ : SubtitleSegment)] {}).getD i
            ⟨0, [], [], []⟩).endTime =
          formatTimestamp (clockAt (({} : SubtitleGenerationNodeConfig).readingSpeed?.getD (29 / 5))
            (({} : SubtitleGenerationNodeConfig).minDuration?.getD (9 / 5))
            (({} : SubtitleGenerationNodeConfig).maxDuration?.getD 3)
            [(⟨1, [], [], ("Hi.".toList)⟩ : SubtitleSegment)] (i + 1)) ∧
        clockAt (({} : SubtitleGenerationNodeConfig).readingSpeed?.getD (29 / 5))
            (({} : SubtitleGenerationNodeConfig).minDuration?.getD (9 / 5))
            (({} : SubtitleGenerationNodeConfig).maxDuration?.getD 3)
            [(⟨1, [], [], ("Hi.".toList)⟩ : SubtitleSegment)] (i + 1) =
          clockAt (({} : SubtitleGenerationNodeConfig).readingSpeed?.getD (29 / 5))
              (({} : SubtitleGenerationNodeConfig).minDuration?.getD (9 / 5))
              (({} : SubtitleGenerationNodeConfig).maxDuration?.getD 3)
              [(⟨1, [], [], ("Hi.".toList)⟩ : SubtitleSegment)] i +
            cueDuration (({} : SubtitleGenerationNodeConfig).readingSpeed?.getD (29 / 5))
              (({} : SubtitleGenerationNodeConfig).minDuration?.getD (9 / 5))
              (({} : SubtitleGenerationNodeConfig).maxDuration?.getD 3)
              ((([(⟨1, [], [], ("Hi.".toList)⟩ : SubtitleSegment)]).getD i
                ⟨0, [], [], []⟩).text) ∧
        (({} : SubtitleGenerationNodeConfig).minDuration?.getD (9 / 5)) ≤
          cueDuration (({} : SubtitleGenerationNodeConfig).readingSpeed?.getD (29 / 5))
            (({} : SubtitleGenerationNodeConfig).minDuration?.getD (9 / 5))
            (({} : SubtitleGenerationNodeConfig).maxDuration?.getD 3)
            ((([(⟨1, [], [], ("Hi.".toList)⟩ : SubtitleSegment)]).getD i
              ⟨0, [], [], []⟩).text) ∧
        cueDuration (({} : SubtitleGenerationNodeConfig).readingSpeed?.getD (29 / 5))
            (({} : SubtitleGenerationNodeConfig).minDuration?.getD (9 / 5))
            (({} : SubtitleGenerationNodeConfig).maxDuration?.getD 3)
            ((([(⟨1, [], [], ("Hi.".toList)⟩ : SubtitleSegment)]).getD i
              ⟨0, [], [], []⟩).text) ≤
          ({} : SubtitleGenerationNodeConfig).maxDuration?.getD 3) ∧
      (([(⟨1, [], [], ("Hi.".toList)⟩ : SubtitleSegment)] : List SubtitleSegment) ≠ [] →
        calculateTotalDuration
            (assignTimestamps [(⟨1, [], [], ("Hi.".toList)⟩ : SubtitleSegment)] {}) =
          some ((⌊1000 * clockAt (({} : SubtitleGenerationNodeConfig).readingSpeed?.getD (29 / 5))
              (({} : SubtitleGenerationNodeConfig).minDuration?.getD (9 / 5))
              (({} : SubtitleGenerationNodeConfig).maxDuration?.getD 3)
              [(⟨1, [], [], ("Hi.".toList)⟩ : SubtitleSegment)]
              ([(⟨1, [], [], ("Hi.".toList)⟩ : SubtitleSegment)]).length⌋ : ℚ) / 1000))) :=
  ⟨by norm_num, by norm_num, by norm_num,
    c3_timeline_assigner [(⟨1, [], [], ("Hi.".toList)⟩ : SubtitleSegment)] {}
      (by norm_num) (by norm_num) (by norm_num)⟩



theorem msfloor_strict {a b : ℚ} (h : a + 1 / 1000 ≤ b) :
    (⌊1000 * a⌋ : ℚ) / 1000 < (⌊1000 * b⌋ : ℚ) / 1000 := by
  have h1 : (1000 : ℚ) * a + 1 ≤ 1000 * b := by linarith
  have h2 : ⌊1000 * a⌋ + 1 ≤ ⌊1000 * b⌋ := by
    calc ⌊1000 * a⌋ + 1 = ⌊1000 * a + 1⌋ := (Int.floor_add_one _).symm
      _ ≤ ⌊1000 * b⌋ := Int.floor_mono h1
  have h3 : (⌊1000 * a⌋ : ℚ) < (⌊1000 * b⌋ : ℚ) := by exact_mod_cast (by omega : ⌊1000 * a⌋ < ⌊1000 * b⌋)
  linarith

/-- C1 (amended): for configurations whose minimum cue duration is at
least one millisecond (the resolution of the stored timestamps), the
produced cue list has 1-based, sequential, gap-free indices, each cue's
parsed start timestamp is strictly below its parsed end timestamp, and
consecutive cues are exactly back-to-back (the end timestamp string of
a cue equals the start timestamp string of the next). -/
theorem c1_cue_list_invariants (script : List Char)
    (config : SubtitleGenerationNodeConfig)
    (hmin : 1 / 1000 ≤ config.minDuration?.getD (9 / 5)) :
    ∀ i, i < (assignTimestamps (splitIntoSegments script config) config).length →
      ((assignTimestamps (splitIntoSegments script config) config).getD i
          ⟨0, [], [], []⟩).index = i + 1 ∧
        (∃ a b : ℚ,
          parseTimestamp (((assignTimestamps (splitIntoSegments script config)
              config).getD i ⟨0, [], [], []⟩).startTime) = some a ∧
          parseTimestamp (((assignTimestamps (splitIntoSegments script config)
              config).getD i ⟨0, [], [], []⟩).endTime) = some b ∧
          a < b) ∧
        (i + 1 < (assignTimestamps (splitIntoSegments script config) config).length →
          ((assignTimestamps (splitIntoSegments script config) config).getD i
              ⟨0, [], [], []⟩).endTime =
            ((assignTimestamps (splitIntoSegments script config) config).getD (i + 1)
              ⟨0, [], [], []⟩).startTime) := by
  have h0 : (0 : ℚ) ≤ config.minDuration?.getD (9 / 5) := by linarith
  have hAT : assignTimestamps (splitIntoSegments script config) config =
      assignGo (config.readingSpeed?.getD (29 / 5)) (config.minDuration?.getD (9 / 5))
        (config.maxDuration?.getD 3) (splitIntoSegments script config) 0 := rfl
  have hlen : (assignTimestamps (splitIntoSegments script config) config).length =
      (splitIntoSegments script config).length := by
    rw [hAT, assignGo_length]
  intro i hi
  have hi' : i < (splitIntoSegments script config).length := by rwa [hlen] at hi
  have hg := assignGo_getD (config.readingSpeed?.getD (29 / 5))
    (config.minDuration?.getD (9 / 5)) (config.maxDuration?.getD 3)
    (splitIntoSegments script config) 0 i hi'
  refine ⟨?_, ?_, ?_⟩
  · rw [hAT, hg]
    show ((splitIntoSegments script config).getD i ⟨0, [], [], []⟩).index = i + 1
    rw [splitIntoSegments_decorate]
    have hblen : i < (specPack (config.maxCharsPerLine?.getD 42 * config.maxLines?.getD 2)
        (scriptFragments script) []).length := by
      have := decorate_length (config.maxCharsPerLine?.getD 42) (config.maxLines?.getD 2)
        (specPack (config.maxCharsPerLine?.getD 42 * config.maxLines?.getD 2)
          (scriptFragments script) []) 1
      rw [splitIntoSegments_decorate] at hi'
      omega
    rw [decorate_getD_index _ _ _ 1 i hblen]
    omega
  · rw [hAT, hg]
    have hc0 : (0 : ℚ) ≤ clockAt (config.readingSpeed?.getD (29 / 5))
        (config.minDuration?.getD (9 / 5)) (config.maxDuration?.getD 3)
        (splitIntoSegments script config) i := clockAt_nonneg h0 _ i
    have hc1 : (0 : ℚ) ≤ clockAt (config.readingSpeed?.getD (29 / 5))
        (config.minDuration?.getD (9 / 5)) (config.maxDuration?.getD 3)
        (splitIntoSegments script config) (i + 1) := clockAt_nonneg h0 _ (i + 1)
    have hp0 : parseTimestamp (formatTimestamp
        (0 + clockAt (config.readingSpeed?.getD (29 / 5))
          (config.minDuration?.getD (9 / 5)) (config.maxDuration?.getD 3)
          (splitIntoSegments script config) i)) =
        some ((⌊1000 * clockAt (config.readingSpeed?.getD (29 / 5))
          (config.minDuration?.getD (9 / 5)) (config.maxDuration?.getD 3)
          (splitIntoSegments script config) i⌋ : ℚ) / 1000) := by
      rw [zero_add]
      exact parseTimestamp_formatTimestamp hc0
    have hp1 : parseTimestamp (formatTimestamp
        (0 + clockAt (config.readingSpeed?.getD (29 / 5))
          (config.minDuration?.getD (9 / 5)) (config.maxDuration?.getD 3)
          (splitIntoSegments script config) (i + 1))) =
        some ((⌊1000 * clockAt (config.readingSpeed?.getD (29 / 5))
          (config.minDuration?.getD (9 / 5)) (config.maxDuration?.getD 3)
          (splitIntoSegments script config) (i + 1)⌋ : ℚ) / 1000) := by
      rw [zero_add]
      exact parseTimestamp_formatTimestamp hc1
    refine ⟨_, _, hp0, hp1, ?_⟩
    apply msfloor_strict
    have hstep : clockAt (config.readingSpeed?.getD (29 / 5))
        (config.minDuration?.getD (9 / 5)) (config.maxDuration?.getD 3)
        (splitIntoSegments script config) (i + 1) =
        clockAt (config.readingSpeed?.getD (29 / 5))
          (config.minDuration?.getD (9 / 5)) (config.maxDuration?.getD 3)
          (splitIntoSegments script config) i +
        cueDuration (config.readingSpeed?.getD (29 / 5))
          (config.minDuration?.getD (9 / 5)) (config.maxDuration?.getD 3)
          (((splitIntoSegments script config).getD i ⟨0, [], [], []⟩).text) := by
      rw [clockAt]
    have hd : config.minDuration?.getD (9 / 5) ≤
        cueDuration (config.readingSpeed?.getD (29 / 5))
          (config.minDuration?.getD (9 / 5)) (config.maxDuration?.getD 3)
          (((splitIntoSegments script config).getD i ⟨0, [], [], []⟩).text) :=
      le_max_left _ _
    rw [hstep]
    linarith
  · intro hi1
    have hi1' : i + 1 < (splitIntoSegments script config).length := by rwa [hlen] at hi1
    have hg1 := assignGo_getD (config.readingSpeed?.getD (29 / 5))
      (config.minDuration?.getD (9 / 5)) (config.maxDuration?.getD 3)
      (splitIntoSegments script config) 0 (i + 1) hi1'
    rw [hAT, hg, hg1]



/-- Witness for C1 at the default configuration and the script
"Hi.". -/
theorem c1_cue_list_invariants_witness :
    (1 / 1000 ≤ (({} : SubtitleGenerationNodeConfig).minDuration?.getD (9 / 5))) ∧
      0 < (assignTimestamps (splitIntoSegments ("Hi.".toList) {}) {}).length ∧
      (((assignTimestamps (splitIntoSegments ("Hi.".toList) {}) {}).getD 0
          ⟨0, [], [], []⟩).index = 0 + 1 ∧
        (∃ a b : ℚ,
          parseTimestamp (((assignTimestamps (splitIntoSegments ("Hi.".toList) {})
              {}).getD 0 ⟨0, [], [], []⟩).startTime) = some a ∧
          parseTimestamp (((assignTimestamps (splitIntoSegments ("Hi.".toList) {})
              {}).getD 0 ⟨0, [], [], []⟩).endTime) = some b ∧
          a < b) ∧
        (0 + 1 < (assignTimestamps (splitIntoSegments ("Hi.".toList) {}) {}).length →
          ((assignTimestamps (splitIntoSegments ("Hi.".toList) {}) {}).getD 0
              ⟨0, [], [], []⟩).endTime =
            ((assignTimestamps (splitIntoSegments ("Hi.".toList) {}) {}).getD (0 + 1)
              ⟨0, [], [], []⟩).startTime)) := by
  have hseg : splitIntoSegments ("Hi.".toList) {} = [⟨1, [], [], ("Hi.".toList)⟩] := by
    simp [splitIntoSegments, splitBySentences, splitScan, sentenceLoop,
      isSentenceTerminal, segGo, jsTrim, jsWhitespace, formatSegmentText,
      collapseWs, collapseWsGo, wrapGo, joinSep, isBreakPoint, isSeparatorChar]
  have hlen : (assignTimestamps (splitIntoSegments ("Hi.".toList) {}) {}).length = 1 := by
    have h1 : assignTimestamps (splitIntoSegments ("Hi.".toList) {}) {} =
        assignGo ((({} : SubtitleGenerationNodeConfig)).readingSpeed?.getD (29 / 5))
          ((({} : SubtitleGenerationNodeConfig)).minDuration?.getD (9 / 5))
          ((({} : SubtitleGenerationNodeConfig)).maxDuration?.getD 3)
          (splitIntoSegments ("Hi.".toList) {}) 0 := rfl
    rw [h1, assignGo_length, hseg]
    rfl
  refine ⟨by norm_num, by omega, ?_⟩
  exact c1_cue_list_invariants ("Hi.".toList) {} (by norm_num) 0 (by omega)

/-- C1 counterexample: the configuration with
minCueDuration = maxCueDuration = 1/2000 s satisfies the spec's timing
invariant 0 < min <= max, yet the produced cue stores the same
start and end timestamp "00:00:00,000", so startTime is not strictly
below endTime at the stored millisecond resolution. -/
theorem c1_counterexample :
    ((0 : ℚ) < 1 / 2000 ∧ (1 / 2000 : ℚ) ≤ 1 / 2000) ∧
      assignTimestamps (splitIntoSegments ("Hi.".toList)
          {minDuration? := some (1 / 2000), maxDuration? := some (1 / 2000)})
        {minDuration? := some (1 / 2000), maxDuration? := some (1 / 2000)} =
        [⟨1, ("00:00:00,000".toList), ("00:00:00,000".toList), ("Hi.".toList)⟩] := by
  refine ⟨⟨by norm_num, le_refl _⟩, ?_⟩
  have hseg : splitIntoSegments ("Hi.".toList)
      {minDuration? := some (1 / 2000), maxDuration? := some (1 / 2000)} =
      [⟨1, [], [], ("Hi.".toList)⟩] := by
    simp [splitIntoSegments, splitBySentences, splitScan, sentenceLoop,
      isSentenceTerminal, segGo, jsTrim, jsWhitespace, formatSegmentText,
      collapseWs, collapseWsGo, wrapGo, joinSep, isBreakPoint, isSeparatorChar]
  rw [hseg]
  simp only [assignTimestamps, assignGo, Option.getD_none, Option.getD_some]
  have hfl : (List.filter (fun x => decide (x ≠ '\n')) ("Hi.".toList)).length = 3 := by
    decide
  rw [hfl]
  have hdur : (1 / 2000 : ℚ) ⊔ (1 / 2000 : ℚ) ⊓ ((3 : ℚ) / (29 / 5)) = 1 / 2000 := by
    rw [show ((3 : ℚ) / (29 / 5)) = 15 / 29 by norm_num]
    rw [min_eq_left (by norm_num), max_self]
  rw [show ((3 : Nat) : ℚ) = (3 : ℚ) by norm_num, hdur, zero_add]
  simp only [List.cons.injEq, and_true, SubtitleSegment.mk.injEq, true_and]
  constructor
  · norm_num [formatTimestamp, jsMod, jsTrunc]
    simp [padStart, intToChars, natDigits, Nat.digitChar]
  · norm_num [formatTimestamp, jsMod, jsTrunc]
    simp [padStart, intToChars, natDigits, Nat.digitChar]

/-! ### Engine errors and styled rendering -/

/-- C4 (amended): the engine raises its fatal error exactly when the
input is empty or whitespace-only; for every other input it returns the
segmented and timestamped cue list unconditionally - the configuration
is never validated. -/
theorem c4_engine_errors (script : List Char) (config : SubtitleGenerationNodeConfig) :
    (executeEngine script config = .error ("Script is empty".toList) ↔
        jsTrim script = []) ∧
      (jsTrim script ≠ [] → executeEngine script config =
        .ok (assignTimestamps (splitIntoSegments script config) config)) := by
  unfold executeEngine
  constructor
  · by_cases h : script = [] ∨ jsTrim script = []
    · rw [if_pos h]
      simp only [true_iff]
      rcases h with h | h
      · subst h
        rfl
      · exact h
    · rw [if_neg h]
      push_neg at h
      constructor
      · intro hc
        exact absurd hc (by simp)
      · intro hc
        exact absurd hc h.2
  · intro hne
    rw [if_neg (by
      intro h
      rcases h with h | h
      · subst h
        exact hne rfl
      · exact hne h)]

/-- Witness for C4 at the script "Hi." and the default
configuration. -/
theorem c4_engine_errors_witness :
    jsTrim ("Hi.".toList) ≠ [] ∧
      executeEngine ("Hi.".toList) {} =
        .ok (assignTimestamps (splitIntoSegments ("Hi.".toList) {}) {}) :=
  ⟨by decide, (c4_engine_errors ("Hi.".toList) {}).2 (by decide)⟩

/-- C4 counterexample: a configuration with minCueDuration 5 greater
than maxCueDuration 2 and negative readingCharsPerSecond raises no
InvalidConfigurationError; the engine silently emits a cue list whose
duration is clamped to the minimum. -/
theorem c4_counterexample :
    (2 : ℚ) < 5 ∧ (-1 : ℚ) ≤ 0 ∧
      executeEngine ("Hi.".toList)
        {minDuration? := some 5, maxDuration? := some 2, readingSpeed? := some (-1)} =
        .ok [⟨1, ("00:00:00,000".toList), ("00:00:05,000".toList), ("Hi.".toList)⟩] := by
  refine ⟨by norm_num, by norm_num, ?_⟩
  simp only [executeEngine]
  rw [if_neg (by decide)]
  have hseg : splitIntoSegments ("Hi.".toList)
      {minDuration? := some 5, maxDuration? := some 2, readingSpeed? := some (-1)} =
      [⟨1, [], [], ("Hi.".toList)⟩] := by
    simp [splitIntoSegments, splitBySentences, splitScan, sentenceLoop,
      isSentenceTerminal, segGo, jsTrim, jsWhitespace, formatSegmentText,
      collapseWs, collapseWsGo, wrapGo, joinSep, isBreakPoint, isSeparatorChar]
  rw [hseg]
  simp only [assignTimestamps, assignGo, Option.getD_none, Option.getD_some]
  have hfl : (List.filter (fun x => decide (x ≠ '\n')) ("Hi.".toList)).length = 3 := by
    decide
  rw [hfl]
  have hdur : (5 : ℚ) ⊔ (2 : ℚ) ⊓ ((3 : ℚ) / (-1)) = 5 := by
    rw [show ((3 : ℚ) / (-1 : ℚ)) = -3 by norm_num]
    rw [min_eq_right (by norm_num), max_eq_left (by norm_num)]
  rw [show ((3 : Nat) : ℚ) = (3 : ℚ) by norm_num, hdur, zero_add]
  simp only [Except.ok.injEq, List.cons.injEq, and_true, SubtitleSegment.mk.injEq,
    true_and]
  constructor
  · norm_num [formatTimestamp, jsMod, jsTrunc]
    simp [padStart, intToChars, natDigits, Nat.digitChar]
  · norm_num [formatTimestamp, jsMod, jsTrunc]
    simp [padStart, intToChars, natDigits, Nat.digitChar]

/-- C7: evaluation at the failing input.  For the wrapped cue text
containing an internal line break, under the default configuration the
emitted styled event text renders the break as a doubled backslash
before N (an escaped backslash followed by a literal N), not as the
single ASS line-break escape: the escaping step of prepareAssText runs
after the line-break conversion and corrupts the inserted marker. -/
theorem c7_ass_linebreak_divergence :
    prepareAssText ("a\nb".toList) {} (getAssStyle {}) =
      ("\x7b\\fad(120,150)\x7da\\\\Nb".toList) ∧
      prepareAssText ("a\nb".toList) {} (getAssStyle {}) ≠
        ("\x7b\\fad(120,150)\x7da\\Nb".toList) := by
  have he : prepareAssText ("a\nb".toList) {} (getAssStyle {}) =
      ("\x7b\\fad(120,150)\x7da\\\\Nb".toList) := by
    norm_num [prepareAssText, getAssStyle, jsRound]
    simp [replaceAll, replaceMatches, defaultHighlightMatch, isDigitFW,
      isAsciiDigit, isUpperAscii, isWordTail, isUnitChar, intToChars,
      natDigits, Nat.digitChar, List.isPrefixOf, assHighlightMarker]
  refine ⟨he, ?_⟩
  rw [he]
  decide

end CaptionEngine
